import Mathlib

/-!
Verification of the `Pad` transform of
`torch_geometric/transforms/pad.py` (graphcore fork).

The Python source is shallowly embedded: padding-policy objects become
structures, the node/edge size resolvers become structures with explicit
state passing for the lazily filled edge-count cache, tensors become
nested lists of rationals, and every Python `assert`/exception becomes an
`Except String` error.  External collaborators (the record/storage
abstraction, `torch.nn.functional.pad`) are modelled from the spec where
noted.
-/

/-! ### Association lists (the embedding of Python `dict`) -/

/-- Lookup in an association list (first match wins, as in a `dict`). -/
def alookup {κ ν : Type} [DecidableEq κ] : List (κ × ν) → κ → Option ν
  | [], _ => none
  | (k, v) :: rest, q => if k = q then some v else alookup rest q

/-- `d[k] = v` on a `dict`: replace the binding when the key is present,
append it otherwise (insertion order preserved, as in Python). -/
def aset {κ ν : Type} [DecidableEq κ] : List (κ × ν) → κ → ν → List (κ × ν)
  | [], q, w => [(q, w)]
  | (k, v) :: rest, q, w =>
    if k = q then (k, w) :: rest else (k, v) :: aset rest q w

/-- The key set of an association list (`d.keys()`). -/
def akeys {κ ν : Type} (l : List (κ × ν)) : List κ := l.map Prod.fst

/-! ### Tensors

A rank-1 or rank-2 tensor over the rationals (the embedding of the
`torch.Tensor` values the transform manipulates; `Rat` stands for the
Python numeric tower, whose exact float representation plays no role in
the padding logic). -/

inductive Tensor : Type
  | vec (xs : List Rat)
  | mat (rows : List (List Rat))
  deriving DecidableEq, Repr

/-- Size of the tensor along dimension 0 (`t.shape[0]`). -/
def Tensor.dim0 : Tensor → Nat
  | .vec xs => xs.length
  | .mat rows => rows.length

/-- Number of columns of a rank-2 tensor (`t.shape[1]`), read off the
first row as `torch` shapes are. -/
def Tensor.width : Tensor → Nat
  | .vec _ => 0
  | .mat rows => (rows.headD []).length

/-- Rectangularity: every row of a rank-2 tensor has the width of the
first row.  Real `torch` tensors always satisfy this; the embedding into
lists states it explicitly. -/
def Tensor.wf : Tensor → Bool
  | .vec _ => true
  | .mat rows => rows.all (fun r => r.length = (rows.headD []).length)

/-- Modelled from the spec: the tensor padding primitive
(`torch.nn.functional.pad` as used through `Pad._pad_tensor_dim`):
given a tensor, a dimension, a pad length and a fill value, return the
tensor extended by `length` slots along that dimension, the new slots all
holding the fill value, the original data occupying the lower indices.
`Pad._pad_tensor_dim` builds the pad list `[0]*(2*ndim)` and sets
`pads[-2*dim-1] = length`, which names the high end of dimension `dim`
(negative `dim` counts from the last dimension as in `torch`); any other
dimension is out of range and fails. -/
def pad_tensor_dim (t : Tensor) (dim : Int) (length : Nat) (pad_value : Rat) :
    Except String Tensor :=
  match t with
  | .vec xs =>
    if dim = 0 ∨ dim = -1 then
      .ok (.vec (xs ++ List.replicate length pad_value))
    else .error ("dimension out of range")
  | .mat rows =>
    if dim = 0 ∨ dim = -2 then
      .ok (.mat (rows ++
        List.replicate length (List.replicate (rows.headD []).length pad_value)))
    else if dim = 1 ∨ dim = -1 then
      .ok (.mat (rows.map (fun r => r ++ List.replicate length pad_value)))
    else .error ("dimension out of range")

/-- Slice assignment `xs[start:] = v` on one list: every slot from
position `start` on is overwritten with `v`. -/
def overwriteFrom (xs : List Rat) (start : Nat) (v : Rat) : List Rat :=
  xs.take start ++ List.replicate (xs.length - start) v

/-- In-place update of the row at an index (`rows[i] = f rows[i]`),
failing when the index is out of range as Python indexing does. -/
def modifyRow (f : List Rat → List Rat) :
    Nat → List (List Rat) → Option (List (List Rat))
  | _, [] => none
  | 0, r :: rest => some (f r :: rest)
  | n + 1, r :: rest => (modifyRow f n rest).map (r :: ·)

/-- `Pad._pad_edge_index`: pad the connectivity tensor by `length`
columns.  `pads = [0, length, 0, 0]` appends `length` slots at the end of
the last dimension, all filled with `src_pad_value`; then, only if the
two placeholder values differ, the new region of row 1 (`padded[1,
input.shape[1]:]`) is overwritten with `dst_pad_value`. -/
def pad_edge_index (input : Tensor) (length : Nat)
    (src_pad_value dst_pad_value : Rat) : Except String Tensor :=
  match input with
  | .vec _ => .error ("pad list longer than tensor rank")
  | .mat rows =>
    let w := (rows.headD []).length
    let padded := rows.map (fun r => r ++ List.replicate length src_pad_value)
    if src_pad_value ≠ dst_pad_value then
      match modifyRow (fun r => overwriteFrom r w dst_pad_value) 1 padded with
      | some rows2 => .ok (.mat rows2)
      | none => .error ("index 1 is out of bounds")
    else .ok (.mat padded)

/-! ### Padding policies

`UniformPadding`, `AttrNamePadding`, `NodeTypePadding`, `EdgeTypePadding`
after successful construction.  `_process` has already wrapped every
scalar of `padding_values` into a `UniformPadding`, so the stored mapping
values have the processed types. -/

/-- `UniformPadding`: one scalar used everywhere. -/
structure UniformPadding : Type where
  padding_values : Rat
  deriving DecidableEq, Repr

/-- `UniformPadding.get_val`: ignores both keys. -/
def UniformPadding.get_val (p : UniformPadding)
    (_store_type : Option Unit := none) (_attr_name : Option String := none) :
    Rat :=
  p.padding_values

/-- `AttrNamePadding` after construction: attribute name to
(scalar-wrapped) `UniformPadding`, plus the default. -/
structure AttrNamePadding : Type where
  padding_values : List (String × UniformPadding)
  default_value : Rat
  deriving DecidableEq, Repr

/-- `AttrNamePadding.get_val`: look the attribute name up, else the
default (`store_type` is ignored; a `None` attribute name is not a key of
the string-keyed dict, hence also falls to the default). -/
def AttrNamePadding.get_val (p : AttrNamePadding)
    (attr_name : Option String) : Rat :=
  match attr_name with
  | some name =>
    match alookup p.padding_values name with
    | some u => u.get_val
    | none => p.default_value
  | none => p.default_value

/-- A processed mapping value of `NodeTypePadding`/`EdgeTypePadding`:
`val_types = (UniformPadding, AttrNamePadding, int, float)` with scalars
wrapped by `_process`. -/
inductive TypeInnerPadding : Type
  | uni (u : UniformPadding)
  | byName (a : AttrNamePadding)
  deriving DecidableEq, Repr

/-- `get_val(None, attr_name)` on a nested mapping value. -/
def TypeInnerPadding.get_val (p : TypeInnerPadding)
    (attr_name : Option String) : Rat :=
  match p with
  | .uni u => u.get_val
  | .byName a => a.get_val attr_name

/-- `NodeTypePadding` after construction. -/
structure NodeTypePadding : Type where
  padding_values : List (String × TypeInnerPadding)
  default_value : Rat
  deriving DecidableEq, Repr

/-- `NodeTypePadding.get_val`: look the node type up and delegate with
`get_val(None, attr_name)`, else the default. -/
def NodeTypePadding.get_val (p : NodeTypePadding)
    (store_type : Option String) (attr_name : Option String) : Rat :=
  match store_type with
  | some t =>
    match alookup p.padding_values t with
    | some inner => inner.get_val attr_name
    | none => p.default_value
  | none => p.default_value

/-- An edge type: a `(source, relation, destination)` triple. -/
abbrev EdgeTypeKey : Type := String × String × String

/-- `EdgeTypePadding` after construction. -/
structure EdgeTypePadding : Type where
  padding_values : List (EdgeTypeKey × TypeInnerPadding)
  default_value : Rat

/-- `EdgeTypePadding.get_val`: look the edge type up and delegate with
`get_val(None, attr_name)`, else the default. -/
def EdgeTypePadding.get_val (p : EdgeTypePadding)
    (store_type : Option EdgeTypeKey) (attr_name : Option String) : Rat :=
  match store_type with
  | some t =>
    match alookup p.padding_values t with
    | some inner => inner.get_val attr_name
    | none => p.default_value
  | none => p.default_value

/-- A constructed `Padding` object of any of the four classes (the
abstract base class's closed set of subclasses). -/
inductive Padding : Type
  | uni (u : UniformPadding)
  | byName (a : AttrNamePadding)
  | byNodeType (p : NodeTypePadding)
  | byEdgeType (p : EdgeTypePadding)

/-- A store-type key as passed to `Padding.get_val`: a node type (string)
or an edge type (triple), when present. -/
inductive StoreKey : Type
  | node (t : String)
  | edge (t : EdgeTypeKey)

/-- Virtual dispatch of `get_val(store_type, attr_name)`.  A node-typed
mapping queried with an edge key (or vice versa, or with `None`) misses
the dict and yields the default, exactly as the Python `in` test does. -/
def Padding.get_val (p : Padding) (store_type : Option StoreKey)
    (attr_name : Option String) : Rat :=
  match p with
  | .uni u => u.get_val
  | .byName a => a.get_val attr_name
  | .byNodeType q =>
    match store_type with
    | some (.node t) => q.get_val (some t) attr_name
    | _ => q.default_value
  | .byEdgeType q =>
    match store_type with
    | some (.edge t) => q.get_val (some t) attr_name
    | _ => q.default_value

/-! ### Construction-time validation of the mapping paddings

The dynamic (`isinstance`-checked) argument values of
`MappingPadding.__init__` are embedded as `PyVal`. -/

/-- A dynamically typed Python value, as far as the validation code
inspects one. -/
inductive PyVal : Type
  | pyint (n : Int)
  | pyfloat (q : Rat)
  | pystr (s : String)
  | pytup (xs : List PyVal)
  | pyuniform (u : UniformPadding)
  | pyattrname (a : AttrNamePadding)
  | pydict (entries : List (PyVal × PyVal))
  | pynone

/-- `isinstance(v, NoneType)`: the `padding_values is None` test. -/
def PyVal.isNone : PyVal → Bool
  | .pynone => true
  | _ => false

/-- `UniformPadding.__init__`: `padding_values` must be an int or a
float. -/
def UniformPadding.make (padding_values : PyVal) :
    Except String UniformPadding :=
  match padding_values with
  | .pyint n => .ok ⟨(n : Rat)⟩
  | .pyfloat q => .ok ⟨q⟩
  | _ => .error ("Type of attribute padding_values must be one of " ++
      "(float, int).")

/-- `AttrNamePadding._validate_key_val` (inherited
`MappingPadding._validate_key_val` with `key_types = (str,)` and
`val_types = (UniformPadding, float, int)`). -/
def AttrNamePadding.validate_key_val (key val : PyVal) : Except String Unit :=
  match key with
  | .pystr _ =>
    match val with
    | .pyuniform _ => .ok ()
    | .pyint _ => .ok ()
    | .pyfloat _ => .ok ()
    | _ => .error ("Not all the types of padding_values values are in " ++
        "(UniformPadding, float, int).")
  | _ => .error ("Not all the types of padding_values keys are in (str,).")

/-- Validate every entry of the mapping in order, as the `for` loop of
`MappingPadding._validate` does. -/
def validateEntries (f : PyVal → PyVal → Except String Unit) :
    List (PyVal × PyVal) → Except String Unit
  | [] => .ok ()
  | (k, v) :: rest => do
    _ ← f k v
    validateEntries f rest

/-- `MappingPadding._process` for `AttrNamePadding`: wrap scalar values
into `UniformPadding` and read off the typed mapping (keys and values
have been validated). -/
def AttrNamePadding.processEntries :
    List (PyVal × PyVal) → List (String × UniformPadding)
  | [] => []
  | (.pystr s, .pyuniform u) :: rest => (s, u) :: processEntries rest
  | (.pystr s, .pyint n) :: rest => (s, ⟨(n : Rat)⟩) :: processEntries rest
  | (.pystr s, .pyfloat q) :: rest => (s, ⟨q⟩) :: processEntries rest
  | _ :: rest => processEntries rest

/-- `AttrNamePadding.__init__` (via `MappingPadding.__init__`):
a `None` mapping becomes `{}`; the argument must be a dict; every entry
is validated; scalars are wrapped. -/
def AttrNamePadding.make (padding_values : PyVal)
    (default_value : Rat := 0) : Except String AttrNamePadding :=
  let pv := if padding_values.isNone then .pydict [] else padding_values
  match pv with
  | .pydict entries => do
    _ ← validateEntries AttrNamePadding.validate_key_val entries
    .ok ⟨AttrNamePadding.processEntries entries, default_value⟩
  | _ => .error ("Attribute padding_values must be a dict.")

/-- `NodeTypePadding._validate_key_val`: `key_types = (str,)`,
`val_types = (UniformPadding, AttrNamePadding, float, int)`. -/
def NodeTypePadding.validate_key_val (key val : PyVal) : Except String Unit :=
  match key with
  | .pystr _ =>
    match val with
    | .pyuniform _ => .ok ()
    | .pyattrname _ => .ok ()
    | .pyint _ => .ok ()
    | .pyfloat _ => .ok ()
    | _ => .error ("Not all the types of padding_values values are in " ++
        "(UniformPadding, AttrNamePadding, float, int).")
  | _ => .error ("Not all the types of padding_values keys are in (str,).")

/-- `_process` for `NodeTypePadding`. -/
def NodeTypePadding.processEntries :
    List (PyVal × PyVal) → List (String × TypeInnerPadding)
  | [] => []
  | (.pystr s, .pyuniform u) :: rest => (s, .uni u) :: processEntries rest
  | (.pystr s, .pyattrname a) :: rest => (s, .byName a) :: processEntries rest
  | (.pystr s, .pyint n) :: rest => (s, .uni ⟨(n : Rat)⟩) :: processEntries rest
  | (.pystr s, .pyfloat q) :: rest => (s, .uni ⟨q⟩) :: processEntries rest
  | _ :: rest => processEntries rest

/-- `NodeTypePadding.__init__`. -/
def NodeTypePadding.make (padding_values : PyVal)
    (default_value : Rat := 0) : Except String NodeTypePadding :=
  let pv := if padding_values.isNone then .pydict [] else padding_values
  match pv with
  | .pydict entries => do
    _ ← validateEntries NodeTypePadding.validate_key_val entries
    .ok ⟨NodeTypePadding.processEntries entries, default_value⟩
  | _ => .error ("Attribute padding_values must be a dict.")

/-- `EdgeTypePadding._validate_key_val`: the inherited check demands a
tuple key and an accepted value type, then the override additionally
demands exactly 3 elements, each a string. -/
def EdgeTypePadding.validate_key_val (key val : PyVal) : Except String Unit :=
  match key with
  | .pytup elems =>
    match val with
    | .pyuniform _ => validateTup elems
    | .pyattrname _ => validateTup elems
    | .pyint _ => validateTup elems
    | .pyfloat _ => validateTup elems
    | _ => .error ("Not all the types of padding_values values are in " ++
        "(UniformPadding, AttrNamePadding, float, int).")
  | _ => .error ("Not all the types of padding_values keys are in (tuple,).")
where
  /-- The `EdgeTypePadding._validate_key_val` override body. -/
  validateTup (elems : List PyVal) : Except String Unit :=
    if elems.length = 3 then
      if elems.all (fun e => match e with | .pystr _ => true | _ => false) then
        .ok ()
      else .error ("Not all the types of elements of padding_values keys " ++
          "are in (str,).")
    else .error ("Invalid edge type. Should be a tuple with 3 elements " ++
        "but contains " ++ toString elems.length ++ " elements.")

/-- `_process` for `EdgeTypePadding`. -/
def EdgeTypePadding.processEntries :
    List (PyVal × PyVal) → List (EdgeTypeKey × TypeInnerPadding)
  | [] => []
  | (.pytup [.pystr a, .pystr b, .pystr c], v) :: rest =>
    match v with
    | .pyuniform u => ((a, b, c), .uni u) :: processEntries rest
    | .pyattrname p => ((a, b, c), .byName p) :: processEntries rest
    | .pyint n => ((a, b, c), .uni ⟨(n : Rat)⟩) :: processEntries rest
    | .pyfloat q => ((a, b, c), .uni ⟨q⟩) :: processEntries rest
    | _ => processEntries rest
  | _ :: rest => processEntries rest

/-- `EdgeTypePadding.__init__`. -/
def EdgeTypePadding.make (padding_values : PyVal)
    (default_value : Rat := 0) : Except String EdgeTypePadding :=
  let pv := if padding_values.isNone then .pydict [] else padding_values
  match pv with
  | .pydict entries => do
    _ ← validateEntries EdgeTypePadding.validate_key_val entries
    .ok ⟨EdgeTypePadding.processEntries entries, default_value⟩
  | _ => .error ("Attribute padding_values must be a dict.")

/-! ### Size resolvers (`Pad._NumNodes`, `Pad._NumEdges`) -/

/-- The raw `max_num_nodes` constructor argument, as `isinstance`
inspects it: an int, a dict from node type to int, `None`, or a value of
any other runtime type. -/
inductive MaxNumNodesArg : Type
  | int (n : Int)
  | dict (m : List (String × Int))
  | pynone
  | other

/-- `Pad._NumNodes` after construction: either a number or a dict
(`_IntOrDict.value`; `is_number` is the `isinstance(value,
numbers.Number)` flag computed at construction). -/
structure NumNodes : Type where
  value : Option (Int ⊕ List (String × Int))
  deriving DecidableEq, Repr

/-- `Pad._NumNodes.__init__`: asserts the value is an int or a dict
(`None` and everything else is rejected). -/
def NumNodes.make : MaxNumNodesArg → Except String NumNodes
  | .int n => .ok ⟨some (.inl n)⟩
  | .dict m => .ok ⟨some (.inr m)⟩
  | _ => .error ("Parameter max_num_nodes must be of type int or dict.")

/-- `isinstance(self.value, numbers.Number)`. -/
def NumNodes.is_number (n : NumNodes) : Bool :=
  match n.value with
  | some (.inl _) => true
  | _ => false

/-- `_IntOrDict.is_none`. -/
def NumNodes.is_none (n : NumNodes) : Bool := n.value.isNone

/-- `Pad._NumNodes.get_val`: a number (or `None`) is returned directly,
ignoring the key; a dict requires a string key present in the mapping and
fails with a message naming the key otherwise.  The `None` result of the
number-or-`None` branch is modelled as an error at the caller, so this
embedding returns `Int`; construction never stores `None`. -/
def NumNodes.get_val (n : NumNodes) (key : Option String := none) :
    Except String Int :=
  match n.value with
  | some (.inl v) => .ok v
  | none => .error ("num_nodes is None")
  | some (.inr m) =>
    match key with
    | none => .error ("assert isinstance(key, str)")
    | some k =>
      match alookup m k with
      | some v => .ok v
      | none => .error ("The number of " ++ k ++
          " nodes was not specified for padding.")

/-- The two-level edge-count cache: outer key `(src_type, dst_type)`,
inner key the relation name (`defaultdict(lambda: defaultdict(int))`
seeded from the explicit mapping). -/
abbrev EdgeCache : Type := List ((String × String) × List (String × Int))

/-- Second-level cache lookup: `value[src, dst][rel]` guarded by the two
membership tests of `get_val`. -/
def EdgeCache.find (c : EdgeCache) (src dst rel : String) : Option Int :=
  match alookup c (src, dst) with
  | some inner => alookup inner rel
  | none => none

/-- Cache store: `value[src, dst][rel] = v` (the outer `defaultdict`
creates the inner dict when absent). -/
def EdgeCache.store (c : EdgeCache) (src dst rel : String) (v : Int) :
    EdgeCache :=
  match alookup c (src, dst) with
  | some inner => aset c (src, dst) (aset inner rel v)
  | none => aset c (src, dst) [(rel, v)]

/-- Seed the cache from the explicit `max_num_edges` mapping:
`num_edges[src_node, dst_node][edge_type] = v` in iteration order. -/
def seedEdgeCache (m : List (EdgeTypeKey × Int)) : EdgeCache :=
  m.foldl (fun c kv => c.store kv.1.1 kv.1.2.2 kv.1.2.1 kv.2) []

/-- `Pad._NumEdges` after construction. -/
structure NumEdges : Type where
  value : Option (Int ⊕ EdgeCache)
  num_nodes : NumNodes
  deriving DecidableEq, Repr

/-- The raw `max_num_edges` constructor argument. -/
inductive MaxNumEdgesArg : Type
  | pynone
  | int (n : Int)
  | dict (m : List (EdgeTypeKey × Int))
  | other

/-- `Pad._NumEdges.__init__`: an explicit int is kept; an explicit dict
is normalized into the two-level cache; an absent (`None`) spec becomes
`num_nodes * num_nodes` when the node count is a number and an empty
cache otherwise; any other type is rejected. -/
def NumEdges.make (value : MaxNumEdgesArg) (num_nodes : NumNodes) :
    Except String NumEdges :=
  match value with
  | .int n => .ok ⟨some (.inl n), num_nodes⟩
  | .dict m => .ok ⟨some (.inr (seedEdgeCache m)), num_nodes⟩
  | .pynone =>
    match num_nodes.value with
    | some (.inl n) => .ok ⟨some (.inl (n * n)), num_nodes⟩
    | _ => .ok ⟨some (.inr []), num_nodes⟩
  | .other => .error ("If provided, parameter max_num_edges must be of " ++
      "type int or dict.")

/-- `isinstance(self.value, numbers.Number)`. -/
def NumEdges.is_number (e : NumEdges) : Bool :=
  match e.value with
  | some (.inl _) => true
  | _ => false

/-- `_IntOrDict.is_none`: whether the stored value is `None`. -/
def NumEdges.is_none (e : NumEdges) : Bool := e.value.isNone

/-- `Pad._NumEdges.get_val`: a number is returned directly; a cache
requires a 3-tuple key; a hit is returned as is; a miss derives
`num_nodes(src) * num_nodes(dst)`, stores it in the cache and returns the
stored entry.  The mutation of `self.value` is explicit: the updated
resolver is returned alongside the result. -/
def NumEdges.get_val (e : NumEdges) (key : Option EdgeTypeKey := none) :
    Except String (Int × NumEdges) :=
  match e.value with
  | some (.inl v) => .ok (v, e)
  | none => .error ("num_edges is None")
  | some (.inr cache) =>
    match key with
    | none => .error ("assert isinstance(key, tuple) and len(key) == 3")
    | some (src_v, edge_type, dst_v) =>
      match cache.find src_v dst_v edge_type with
      | some v => .ok (v, e)
      | none => do
        let a ← e.num_nodes.get_val (some src_v)
        let b ← e.num_nodes.get_val (some dst_v)
        let cache2 := cache.store src_v dst_v edge_type (a * b)
        match cache2.find src_v dst_v edge_type with
        | some v => .ok (v, ⟨some (.inr cache2), e.num_nodes⟩)
        | none => .error ("unreachable: entry was just stored")

/-! ### Records and stores

Modelled from the spec: the record/storage abstraction exposes, per
store, its attribute names with their tensors, the predicates "is this
key a node attribute" / "is this key an edge attribute" (embedded as the
designated key lists below), and a count of entities currently present
(derived from the stored tensors, with an explicit fallback for a store
holding no such attribute). -/

structure Store : Type where
  attrs : List (String × Tensor)
  node_keys : List String
  edge_keys : List String
  num_nodes_hint : Nat
  num_edges_hint : Nat
  deriving DecidableEq, Repr

/-- `store.is_node_attr(key)` (external predicate). -/
def Store.is_node_attr (s : Store) (k : String) : Bool := decide (k ∈ s.node_keys)

/-- `store.is_edge_attr(key)` (external predicate). -/
def Store.is_edge_attr (s : Store) (k : String) : Bool := decide (k ∈ s.edge_keys)

/-- The tensor of the first designated key present in the store. -/
def firstKeyTensor (attrs : List (String × Tensor)) :
    List String → Option Tensor
  | [] => none
  | k :: rest =>
    match alookup attrs k with
    | some t => some t
    | none => firstKeyTensor attrs rest

/-- Modelled from the spec: `store.num_nodes`, the count of node
entities currently present, read off the size of a node-level attribute
along its entity dimension (dimension 0). -/
def Store.num_nodes (s : Store) : Nat :=
  match firstKeyTensor s.attrs s.node_keys with
  | some t => t.dim0
  | none => s.num_nodes_hint

/-- Modelled from the spec: `store.num_edges`, the count of edge
entities currently present: the number of columns of the connectivity
attribute when present, else the entity-dimension size of an edge-level
attribute. -/
def Store.num_edges (s : Store) : Nat :=
  match alookup s.attrs ("edge_index") with
  | some t => t.width
  | none =>
    match firstKeyTensor s.attrs s.edge_keys with
    | some t => t.dim0
    | none => s.num_edges_hint

/-- The deletion loop `for key in self.exclude_keys: if key in
store.keys(): del store[key]`. -/
def removeKeys : List (String × Tensor) → List String → List (String × Tensor)
  | [], _ => []
  | (k, v) :: rest, ks =>
    if k ∈ ks then removeKeys rest ks else (k, v) :: removeKeys rest ks

/-- A store after the exclusion pass. -/
def Store.deleteKeys (s : Store) (ks : List String) : Store :=
  { s with attrs := removeKeys s.attrs ks }

/-- Modelled from the spec: `data.__cat_dim__`, "which dimension does
this attribute vary along" — the connectivity attribute varies along its
last (column) dimension, every other attribute along dimension 0. -/
def catDim (attr : String) : Int := if attr = "edge_index" then -1 else 0

/-! ### The `Pad` transform state -/

/-- The state a constructed `Pad` instance holds. -/
structure PadState : Type where
  max_num_nodes : NumNodes
  max_num_edges : NumEdges
  exclude_keys : List String
  node_pad : Padding
  edge_pad : Padding
  node_additional_attrs_pad : List (String × Rat)

/-- The `node_pad_value` / `edge_pad_value` constructor argument as the
runtime type tests see it. -/
inductive PadValueArg : Type
  | pynone
  | scalar (v : Rat)
  | pad (p : Padding)
  | other

/-- `Pad._process_padding_argument`: an explicit `Padding` is kept,
`None` becomes the default `UniformPadding(0.0)`, a scalar is wrapped,
anything else is rejected naming the parameter. -/
def PadState.process_padding_argument (padding : PadValueArg) (name : String) :
    Except String Padding :=
  match padding with
  | .pad p => .ok p
  | .pynone => .ok (.uni ⟨0⟩)
  | .scalar v => .ok (.uni ⟨v⟩)
  | .other => .error ("Invalid type of " ++ name ++ ".")

/-- `Pad.__init__`: build the two size resolvers, the exclusion set
(rejecting an excluded `x`), the two padding policies and the fixed
mask-attribute fill map. -/
def PadState.make (max_num_nodes : MaxNumNodesArg) (max_num_edges : MaxNumEdgesArg)
    (node_pad_value edge_pad_value : PadValueArg)
    (mask_pad_value : Option Rat) (exclude_keys : Option (List String)) :
    Except String PadState := do
  let nn ← NumNodes.make max_num_nodes
  let ne ← NumEdges.make max_num_edges nn
  let ex := exclude_keys.getD []
  if ("x") ∈ ex then
    .error ("Cannot create a Pad with x attribute being excluded.")
  else do
    let np ← PadState.process_padding_argument node_pad_value ("node_pad_value")
    let ep ← PadState.process_padding_argument edge_pad_value ("edge_pad_value")
    let m := mask_pad_value.getD 0
    .ok { max_num_nodes := nn, max_num_edges := ne, exclude_keys := ex,
          node_pad := np, edge_pad := ep,
          node_additional_attrs_pad :=
            [("train_mask", m), ("val_mask", m), ("test_mask", m)] }

/-- `Pad.__should_pad_node_attr`: mask attributes always qualify; other
attributes qualify unless excluded. -/
def PadState.should_pad_node_attr (p : PadState) (attr_name : String) : Bool :=
  if (alookup p.node_additional_attrs_pad attr_name).isSome then true
  else if attr_name ∉ p.exclude_keys then true
  else false

/-- `Pad.__should_pad_edge_attr`: nothing qualifies when the edge-count
spec is `None`; the connectivity attribute always qualifies; other
attributes qualify unless excluded. -/
def PadState.should_pad_edge_attr (p : PadState) (attr_name : String) : Bool :=
  if p.max_num_edges.is_none then false
  else if attr_name = "edge_index" then true
  else if attr_name ∉ p.exclude_keys then true
  else false

/-- `Pad.__get_node_padding`: the mask-attribute override, else the node
policy resolved at `(node_type, attr_name)`. -/
def PadState.get_node_padding (p : PadState) (attr_name : String)
    (node_type : Option String) : Rat :=
  match alookup p.node_additional_attrs_pad attr_name with
  | some v => v
  | none => p.node_pad.get_val (node_type.map .node) (some attr_name)

/-- `Pad.__get_edge_padding`: the edge policy resolved at
`(edge_type, attr_name)`. -/
def PadState.get_edge_padding (p : PadState) (attr_name : String)
    (edge_type : Option EdgeTypeKey) : Rat :=
  p.edge_pad.get_val (edge_type.map .edge) (some attr_name)

/-- The `for attr_name in attrs_to_pad` loop of `__pad_node_store`:
each selected attribute is replaced by its padded tensor. -/
def padNodeAttrs (p : PadState) (node_type : Option String) (num_pad : Nat) :
    List String → List (String × Tensor) →
    Except String (List (String × Tensor))
  | [], attrs => .ok attrs
  | a :: rest, attrs =>
    match alookup attrs a with
    | some t => do
      let pv := p.get_node_padding a node_type
      let t2 ← pad_tensor_dim t (catDim a) num_pad pv
      padNodeAttrs p node_type num_pad rest (aset attrs a t2)
    | none => .error ("KeyError: " ++ a)

/-- `Pad.__pad_node_store`: select the qualifying node-level attributes;
skip when none; resolve the target count; fail unless it strictly
exceeds the current count; pad every selected attribute by the
difference. -/
def PadState.pad_node_store (p : PadState) (s : Store)
    (node_type : Option String) : Except String Store :=
  let attrs_to_pad := (akeys s.attrs).filter
    (fun a => s.is_node_attr a && p.should_pad_node_attr a)
  if attrs_to_pad.isEmpty then .ok s
  else do
    let num_target_nodes ← p.max_num_nodes.get_val node_type
    let cur := s.num_nodes
    if (cur : Int) < num_target_nodes then
      let num_pad := (num_target_nodes - (cur : Int)).toNat
      let attrs2 ← padNodeAttrs p node_type num_pad attrs_to_pad s.attrs
      .ok { s with attrs := attrs2 }
    else
      .error ("The number of nodes after padding (" ++
        toString num_target_nodes ++
        ") must be greater than the number of nodes in the data object (" ++
        toString (cur : Int) ++ ").")

/-- The `for attr_name in attrs_to_pad` loop of `__pad_edge_store`: the
connectivity attribute goes through `_pad_edge_index`, everything else
through the scalar-fill pad. -/
def padEdgeAttrs (p : PadState) (edge_type : Option EdgeTypeKey)
    (num_pad : Nat) (src_pad dst_pad : Rat) :
    List String → List (String × Tensor) →
    Except String (List (String × Tensor))
  | [], attrs => .ok attrs
  | a :: rest, attrs =>
    match alookup attrs a with
    | some t => do
      let t2 ←
        if a = "edge_index" then pad_edge_index t num_pad src_pad dst_pad
        else
          pad_tensor_dim t (catDim a) num_pad (p.get_edge_padding a edge_type)
      padEdgeAttrs p edge_type num_pad src_pad dst_pad rest (aset attrs a t2)
    | none => .error ("KeyError: " ++ a)

/-- The `isinstance(num_nodes, tuple)` unpacking of `__pad_edge_store`:
a single count is used for both placeholder values, a pair is split into
the source and destination placeholder values. -/
def splitNumNodes (num_nodes : Nat ⊕ (Nat × Nat)) : Rat × Rat :=
  match num_nodes with
  | .inl n => ((n : Rat), (n : Rat))
  | .inr nm => ((nm.1 : Rat), (nm.2 : Rat))

/-- `Pad.__pad_edge_store`: select the qualifying edge-level attributes;
skip when none; resolve the target count (possibly filling the edge-count
cache, hence the returned `PadState`); fail when it is below the current
count; split the placeholder pair; pad every selected attribute. -/
def PadState.pad_edge_store (p : PadState) (s : Store)
    (num_nodes : Nat ⊕ (Nat × Nat)) (edge_type : Option EdgeTypeKey) :
    Except String (PadState × Store) :=
  let attrs_to_pad := (akeys s.attrs).filter
    (fun a => s.is_edge_attr a && p.should_pad_edge_attr a)
  if attrs_to_pad.isEmpty then .ok (p, s)
  else do
    let r ← p.max_num_edges.get_val edge_type
    let num_target_edges := r.1
    let p2 : PadState := { p with max_num_edges := r.2 }
    let cur := s.num_edges
    if (cur : Int) ≤ num_target_edges then
      let num_pad := (num_target_edges - (cur : Int)).toNat
      let sd := splitNumNodes num_nodes
      let attrs2 ← padEdgeAttrs p2 edge_type num_pad sd.1 sd.2
        attrs_to_pad s.attrs
      .ok (p2, { s with attrs := attrs2 })
    else
      .error ("The number of edges after padding (" ++
        toString num_target_edges ++
        ") cannot be lower than the number of edges in the data object (" ++
        toString (cur : Int) ++ ").")

/-- The homogeneous capability check on `node_pad` (`UniformPadding` or
`AttrNamePadding`). -/
def Padding.isDataKind : Padding → Bool
  | .uni _ => true
  | .byName _ => true
  | _ => false

/-- The heterogeneous capability check on `node_pad`. -/
def Padding.isHeteroNodeKind : Padding → Bool
  | .uni _ => true
  | .byName _ => true
  | .byNodeType _ => true
  | _ => false

/-- The heterogeneous capability check on `edge_pad`. -/
def Padding.isHeteroEdgeKind : Padding → Bool
  | .uni _ => true
  | .byName _ => true
  | .byEdgeType _ => true
  | _ => false

/-- `Pad.__call__` on a homogeneous `Data` record (a single store):
capability and scalar-count asserts, then per the single store the
exclusion pass, the edge padding (with `data.num_nodes` as both
placeholder values) and the node padding, mutating the record in
place (embedded as returning the updated store and transform state). -/
def PadState.call_data (p : PadState) (d : Store) :
    Except String (PadState × Store) :=
  if ¬ p.node_pad.isDataKind then
    .error ("Node padding for Data objects must be of type UniformPadding " ++
      "or AttrNamePadding.")
  else if ¬ p.edge_pad.isDataKind then
    .error ("Edge padding for Data objects must be of type UniformPadding " ++
      "or AttrNamePadding.")
  else if ¬ p.max_num_nodes.is_number then
    .error ("Number of nodes for Data objects must be a number.")
  else if ¬ (p.max_num_edges.is_number || p.max_num_edges.is_none) then
    .error ("Number of edges for Data objects must be a number or None.")
  else do
    let s1 := d.deleteKeys p.exclude_keys
    let r ← p.pad_edge_store s1 (.inl s1.num_nodes) none
    let s3 ← r.1.pad_node_store r.2 none
    .ok (r.1, s3)

/-- A heterogeneous record: its typed node stores and edge stores. -/
structure HeteroData : Type where
  node_stores : List (String × Store)
  edge_stores : List (EdgeTypeKey × Store)

/-- `data[node_type]` during the edge loop: the node store of an
endpoint type (an endpoint type absent from the record makes the
placeholder count unavailable and the call fails). -/
def findNodeStore (node_stores : List (String × Store)) (t : String) :
    Except String Store :=
  match alookup node_stores t with
  | some s => .ok s
  | none => .error ("The node store " ++ t ++ " is not present.")

/-- The `for edge_type, store in data.edge_items()` loop of `__call__`:
exclusion pass, then edge padding with the two endpoint stores' current
node counts as placeholder values. -/
def PadState.edge_phase (p : PadState) (node_stores : List (String × Store)) :
    List (EdgeTypeKey × Store) →
    Except String (PadState × List (EdgeTypeKey × Store))
  | [] => .ok (p, [])
  | (et, s) :: rest => do
    let s1 := s.deleteKeys p.exclude_keys
    let nsrc ← findNodeStore node_stores et.1
    let ndst ← findNodeStore node_stores et.2.2
    let r ← p.pad_edge_store s1 (.inr (nsrc.num_nodes, ndst.num_nodes))
      (some et)
    let r2 ← PadState.edge_phase r.1 node_stores rest
    .ok (r2.1, (et, r.2) :: r2.2)

/-- The `for node_type, store in data.node_items()` loop of `__call__`:
exclusion pass, then node padding. -/
def PadState.node_phase (p : PadState) :
    List (String × Store) → Except String (List (String × Store))
  | [] => .ok []
  | (nt, s) :: rest => do
    let s1 := s.deleteKeys p.exclude_keys
    let s2 ← p.pad_node_store s1 (some nt)
    let rest2 ← PadState.node_phase p rest
    .ok ((nt, s2) :: rest2)

/-- `Pad.__call__` on a heterogeneous record: capability asserts, the
edge loop (which reads the endpoint node counts before any node store is
padded), then the node loop. -/
def PadState.call_hetero (p : PadState) (d : HeteroData) :
    Except String (PadState × HeteroData) :=
  if ¬ p.node_pad.isHeteroNodeKind then
    .error ("assert isinstance(self.node_pad, (UniformPadding, " ++
      "AttrNamePadding, NodeTypePadding))")
  else if ¬ p.edge_pad.isHeteroEdgeKind then
    .error ("assert isinstance(self.edge_pad, (UniformPadding, " ++
      "AttrNamePadding, EdgeTypePadding))")
  else do
    let r ← p.edge_phase d.node_stores d.edge_stores
    let ns ← r.1.node_phase d.node_stores
    .ok (r.1, { node_stores := ns, edge_stores := r.2 })

/-! ### Reference definitions written from the specification text

These restate, in the spec's own terms, what resolution of each policy
variant is supposed to return; the claim theorems compare them with the
embedded `get_val` implementations. -/

/-- Spec reference for `ByAttributeNamePolicy`: `M[name].resolve()` if
`name ∈ M`, else `d`. -/
def refResolveByName (M : List (String × UniformPadding)) (d : Rat)
    (name : String) : Rat :=
  match alookup M name with
  | some u => u.padding_values
  | none => d

/-- Spec reference for `ByNodeTypePolicy` / `ByEdgeTypePolicy`:
`M[type].resolve(None, name)` if `type ∈ M`, else `d`. -/
def refResolveByType {κ : Type} [DecidableEq κ]
    (M : List (κ × TypeInnerPadding)) (d : Rat) (t : κ)
    (name : Option String) : Rat :=
  match alookup M t with
  | some inner => inner.get_val name
  | none => d

/-- `isinstance(v, dict)`. -/
def PyVal.isDict : PyVal → Bool
  | .pydict _ => true
  | _ => false

/-- Spec reference: the expected key shape of an attribute-name or
node-type policy (a string). -/
def isStrKey : PyVal → Bool
  | .pystr _ => true
  | _ => false

/-- Spec reference: the accepted value-type set of
`ByAttributeNamePolicy` (`UniformPolicy` or a scalar). -/
def isAcceptedAttrVal : PyVal → Bool
  | .pyuniform _ => true
  | .pyint _ => true
  | .pyfloat _ => true
  | _ => false

/-- Spec reference: the accepted value-type set of the two by-type
policies (`UniformPolicy`, `ByAttributeNamePolicy` or a scalar). -/
def isAcceptedTypeVal : PyVal → Bool
  | .pyuniform _ => true
  | .pyattrname _ => true
  | .pyint _ => true
  | .pyfloat _ => true
  | _ => false

/-- Spec reference: the expected key shape of `ByEdgeTypePolicy`
(a tuple of exactly 3 string elements). -/
def isEdgeKeyShape : PyVal → Bool
  | .pytup es => decide (es.length = 3) && es.all isStrKey
  | _ => false

/-! ### Claim C3: the homogeneous 3-node / 2-edge scenario -/

/-- The scenario record: a homogeneous store with a 3-row node feature
`x` and a 2-column connectivity attribute. -/
def c3Store (r0 r1 r2 : List Rat) : Store :=
  ⟨[("x", .mat [r0, r1, r2]), ("edge_index", .mat [[0, 1], [1, 2]])],
   ["x"], ["edge_index"], 0, 0⟩

theorem alookup_aset_self {κ ν : Type} [DecidableEq κ]
    (l : List (κ × ν)) (k : κ) (v : ν) : alookup (aset l k v) k = some v := by
  induction l with
  | nil => simp [aset, alookup]
  | cons p rest ih =>
    obtain ⟨k0, v0⟩ := p
    by_cases h : k0 = k <;> simp [aset, alookup, h, ih]

theorem akeys_aset_of_mem {κ ν : Type} [DecidableEq κ]
    (l : List (κ × ν)) (k : κ) (v : ν) (h : k ∈ akeys l) :
    akeys (aset l k v) = akeys l := by
  induction l with
  | nil => simp [akeys] at h
  | cons p rest ih =>
    obtain ⟨k0, v0⟩ := p
    by_cases hk : k0 = k
    · simp [aset, akeys, hk]
    · have h' : k ∈ akeys rest := by
        rcases (by simpa [akeys] using h : k = k0 ∨ k ∈ akeys rest) with h1 | h2
        · exact absurd h1.symm hk
        · exact h2
      simp [aset, akeys, hk]
      simpa [akeys] using ih h'

theorem alookup_mem_keys {κ ν : Type} [DecidableEq κ]
    (l : List (κ × ν)) (k : κ) (v : ν) (h : alookup l k = some v) :
    k ∈ akeys l := by
  induction l with
  | nil => simp [alookup] at h
  | cons p rest ih =>
    obtain ⟨k0, v0⟩ := p
    by_cases hk : k0 = k
    · simp [akeys, hk]
    · simp only [alookup, if_neg hk] at h
      have := ih h
      simp [akeys] at this ⊢
      exact Or.inr this

theorem alookup_of_not_mem_keys {κ ν : Type} [DecidableEq κ]
    (l : List (κ × ν)) (k : κ) (h : k ∉ akeys l) : alookup l k = none := by
  induction l with
  | nil => simp [alookup]
  | cons p rest ih =>
    obtain ⟨k0, v0⟩ := p
    have hcons : akeys ((k0, v0) :: rest) = k0 :: akeys rest := rfl
    rw [hcons] at h
    have hk : ¬ k0 = k := fun hc => h (by rw [hc]; exact List.mem_cons_self _ _)
    have hrest : k ∉ akeys rest := fun hc => h (List.mem_cons_of_mem _ hc)
    simp only [alookup, if_neg hk]
    exact ih hrest

example :
    pad_edge_index (.mat [[0, 1], [1, 2]]) 3 3 3 =
      .ok (.mat [[0, 1, 3, 3, 3], [1, 2, 3, 3, 3]]) := by rfl

example :
    pad_edge_index (.mat [[0, 1], [1, 2]]) 2 2 5 =
      .ok (.mat [[0, 1, 2, 2], [1, 2, 5, 5]]) := by rfl

example :
    (AttrNamePadding.make
      (.pydict [(.pystr ("x"), .pyuniform ⟨3⟩), (.pystr ("y"), .pyfloat 0)]) 1) =
    .ok ⟨[("x", ⟨3⟩), ("y", ⟨0⟩)], 1⟩ := by rfl

example :
    (AttrNamePadding.make
      (.pydict [(.pytup [.pystr ("x"), .pystr ("y")], .pyfloat 1)]) 0).isOk =
    false := by rfl

example :
    (NumEdges.make .pynone ⟨some (.inl 5)⟩) = .ok ⟨some (.inl 25), ⟨some (.inl 5)⟩⟩ := by
  rfl

example :
    (do
      let e0 ← NumEdges.make .pynone ⟨some (.inr [("a", 4), ("b", 5)])⟩
      let (v, e1) ← e0.get_val (some ("a", "rel", "b"))
      let (v2, _) ← e1.get_val (some ("a", "rel", "b"))
      pure (v, v2) : Except String (Int × Int)) = .ok (20, 20) := by rfl

/-- **C6.** For every padding-policy variant, resolution is a total
function (never raises) and equals its reference definition:
`UniformPolicy(v)` resolves to `v` for all keys; `ByAttributeNamePolicy`
with mapping `M` and default `d` resolves `(_, name)` to `M[name]`
resolved as a uniform value when `name ∈ M` and to `d` otherwise;
`ByNodeTypePolicy` / `ByEdgeTypePolicy` with mapping `M` and default `d`
resolve `(type, name)` to `M[type].resolve(None, name)` when `type ∈ M`
and to `d` otherwise. -/
theorem claim_C6_policy_resolution :
    (∀ (v : Rat) (st : Option StoreKey) (an : Option String),
      (Padding.uni ⟨v⟩).get_val st an = v) ∧
    (∀ (a : AttrNamePadding) (st : Option StoreKey) (name : String),
      (Padding.byName a).get_val st (some name) =
        refResolveByName a.padding_values a.default_value name) ∧
    (∀ (q : NodeTypePadding) (t : String) (an : Option String),
      (Padding.byNodeType q).get_val (some (.node t)) an =
        refResolveByType q.padding_values q.default_value t an) ∧
    (∀ (q : EdgeTypePadding) (t : EdgeTypeKey) (an : Option String),
      (Padding.byEdgeType q).get_val (some (.edge t)) an =
        refResolveByType q.padding_values q.default_value t an) := by
  refine ⟨?_, ?_, ?_, ?_⟩
  · intro v st an
    rfl
  · intro a st name
    simp only [Padding.get_val, AttrNamePadding.get_val, refResolveByName]
    cases alookup a.padding_values name <;> rfl
  · intro q t an
    simp only [Padding.get_val, NodeTypePadding.get_val, refResolveByType]
  · intro q t an
    simp only [Padding.get_val, EdgeTypePadding.get_val, refResolveByType]

/-- **C5, counterexample.** The claim states that the node-count size
spec accepts `None` (meaning unconstrained); in the code
`Pad._NumNodes.__init__` asserts `isinstance(value, (int, dict))`, so a
`None` argument is rejected at construction time. -/
theorem claim_C5_counterexample :
    NumNodes.make .pynone =
      .error ("Parameter max_num_nodes must be of type int or dict.") := by
  rfl

/-- **C5, amended.** The node-count size spec accepts a single integer
or a mapping from node type to integer, and rejects `None` (and every
other type) at construction time; when the spec is a scalar, resolve
ignores the type key and returns it directly; when it is a mapping,
resolve returns the mapped value for a present key and fails with a
missing-node-type-size error naming the key exactly when the queried key
is absent from the mapping. -/
theorem claim_C5_num_nodes_resolver :
    (∀ n : Int, NumNodes.make (.int n) = .ok ⟨some (.inl n)⟩) ∧
    (∀ m : List (String × Int), NumNodes.make (.dict m) = .ok ⟨some (.inr m)⟩) ∧
    ((NumNodes.make .pynone).isOk = false) ∧
    ((NumNodes.make .other).isOk = false) ∧
    (∀ (n : Int) (key : Option String),
      NumNodes.get_val ⟨some (.inl n)⟩ key = .ok n) ∧
    (∀ (m : List (String × Int)) (k : String) (v : Int),
      alookup m k = some v →
      NumNodes.get_val ⟨some (.inr m)⟩ (some k) = .ok v) ∧
    (∀ (m : List (String × Int)) (k : String),
      alookup m k = none →
      NumNodes.get_val ⟨some (.inr m)⟩ (some k) =
        .error ("The number of " ++ k ++
          " nodes was not specified for padding.")) := by
  refine ⟨fun n => rfl, fun m => rfl, rfl, rfl, fun n key => rfl, ?_, ?_⟩
  · intro m k v h
    simp only [NumNodes.get_val, h]
  · intro m k h
    simp only [NumNodes.get_val, h]

/-- **C5, witness.** The amended resolver behaviour at concrete inputs:
a scalar spec of 7 resolves to 7 for any key; the mapping
`{v1: 4}` resolves `v1` to 4 and fails for `v2` naming `v2`. -/
theorem claim_C5_witness :
    NumNodes.get_val ⟨some (.inl 7)⟩ (some ("anything")) = .ok 7 ∧
    NumNodes.get_val ⟨some (.inr [("v1", 4)])⟩ (some ("v1")) = .ok 4 ∧
    NumNodes.get_val ⟨some (.inr [("v1", 4)])⟩ (some ("v2")) =
      .error ("The number of " ++ "v2" ++
        " nodes was not specified for padding.") :=
  ⟨claim_C5_num_nodes_resolver.2.2.2.2.1 7 (some ("anything")),
   claim_C5_num_nodes_resolver.2.2.2.2.2.1 [("v1", 4)] "v1" 4 (by rfl),
   claim_C5_num_nodes_resolver.2.2.2.2.2.2 [("v1", 4)] "v2" (by rfl)⟩

/-- **C4, counterexample.** The claim states `is_none()` returns true
exactly when the `max_num_edges` argument was absent; in the code an
absent spec is replaced at construction by the derived full-connectivity
default, so the resolver built from `None` (here with a scalar node
count of 5, yielding the stored number 25) reports `is_none() = False`. -/
theorem claim_C4_counterexample :
    NumEdges.make .pynone ⟨some (.inl 5)⟩ =
      .ok ⟨some (.inl 25), ⟨some (.inl 5)⟩⟩ ∧
    NumEdges.is_none ⟨some (.inl 25), ⟨some (.inl 5)⟩⟩ = false := by
  exact ⟨rfl, rfl⟩

/-- **C4, amended.** `is_none()` reports whether the stored value is
`None`; construction never stores `None` — an absent `max_num_edges` is
replaced by the derived scalar `num_nodes * num_nodes` when the node
count is scalar and by an empty per-type cache otherwise — so every
constructible edge-count resolver reports `is_none() = False` and edge
padding is never skipped on account of an absent `max_num_edges`.  The
skip logic itself is as claimed: whenever `is_none()` is true, the
should-pad predicate disqualifies every edge attribute. -/
theorem claim_C4_is_none_never_after_construction :
    (∀ (arg : MaxNumEdgesArg) (nn : NumNodes) (e : NumEdges),
      NumEdges.make arg nn = .ok e → e.is_none = false) ∧
    (∀ (p : PadState) (a : String),
      p.max_num_edges.is_none = true → p.should_pad_edge_attr a = false) := by
  constructor
  · intro arg nn e h
    cases arg with
    | int n => cases h; rfl
    | dict m => cases h; rfl
    | pynone =>
      simp only [NumEdges.make] at h
      cases hv : nn.value with
      | none => rw [hv] at h; cases h; rfl
      | some s =>
        cases s with
        | inl n => rw [hv] at h; cases h; rfl
        | inr m => rw [hv] at h; cases h; rfl
    | other => cases h
  · intro p a h
    simp only [PadState.should_pad_edge_attr, h, if_true]

/-- **C4, witness.** The amended behaviour at concrete inputs: the
resolver built from an explicit mapping is not `None`; a (directly
assembled) resolver state whose value is `None` makes the should-pad
predicate reject the attribute `edge_attr`. -/
theorem claim_C4_witness :
    NumEdges.is_none ⟨some (.inr []), ⟨some (.inl 5)⟩⟩ = false ∧
    PadState.should_pad_edge_attr
      ⟨⟨some (.inl 5)⟩, ⟨none, ⟨some (.inl 5)⟩⟩, [], .uni ⟨0⟩, .uni ⟨0⟩, []⟩
      ("edge_attr") = false :=
  ⟨claim_C4_is_none_never_after_construction.1 (.dict []) ⟨some (.inl 5)⟩
      ⟨some (.inr []), ⟨some (.inl 5)⟩⟩ (by rfl),
   claim_C4_is_none_never_after_construction.2
      ⟨⟨some (.inl 5)⟩, ⟨none, ⟨some (.inl 5)⟩⟩, [], .uni ⟨0⟩, .uni ⟨0⟩, []⟩
      ("edge_attr") (by rfl)⟩

theorem exceptBindOk {ε α β : Type} (a : α) (f : α → Except ε β) :
    ((Except.ok a : Except ε α) >>= f) = f a := rfl

theorem alookup_aset_ne {κ ν : Type} [DecidableEq κ]
    (l : List (κ × ν)) (k q : κ) (v : ν) (h : k ≠ q) :
    alookup (aset l q v) k = alookup l k := by
  induction l with
  | nil =>
    have hqk : ¬ q = k := fun hc => h hc.symm
    simp [aset, alookup, hqk]
  | cons p rest ih =>
    obtain ⟨k0, v0⟩ := p
    by_cases hq : k0 = q
    · subst hq
      have hk : ¬ k0 = k := fun hc => h hc.symm
      simp [aset, alookup, hk]
    · simp [aset, alookup, hq, ih]

theorem EdgeCache.find_store_self (c : EdgeCache) (s d r : String) (v : Int) :
    (c.store s d r v).find s d r = some v := by
  unfold EdgeCache.store EdgeCache.find
  cases h : alookup c (s, d) with
  | some inner => simp [alookup_aset_self, alookup]
  | none => simp [alookup_aset_self, alookup]

/-- **C7.** For every edge-type triple not pre-seeded in the edge-count
cache, the first resolution derives `node_count(src) * node_count(dst)`,
stores it in the cache and returns it; every subsequent resolution of
the same triple returns the identical cached value with the resolver
state unchanged (no recomputation); and a cached entry is never
overwritten: any hit is returned as is, leaving the state untouched. -/
theorem claim_C7_edge_count_cache :
    ∀ (c : EdgeCache) (nn : NumNodes) (s r d : String) (a b : Int),
      c.find s d r = none →
      nn.get_val (some s) = .ok a →
      nn.get_val (some d) = .ok b →
      (NumEdges.get_val ⟨some (.inr c), nn⟩ (some (s, r, d)) =
        .ok (a * b, ⟨some (.inr (c.store s d r (a * b))), nn⟩)) ∧
      (NumEdges.get_val ⟨some (.inr (c.store s d r (a * b))), nn⟩
          (some (s, r, d)) =
        .ok (a * b, ⟨some (.inr (c.store s d r (a * b))), nn⟩)) ∧
      (∀ (c2 : EdgeCache) (s2 d2 r2 : String) (v : Int),
        c2.find s2 d2 r2 = some v →
        NumEdges.get_val ⟨some (.inr c2), nn⟩ (some (s2, r2, d2)) =
          .ok (v, ⟨some (.inr c2), nn⟩)) := by
  intro c nn s r d a b hmiss ha hb
  refine ⟨?_, ?_, ?_⟩
  · simp only [NumEdges.get_val, hmiss, ha, hb, EdgeCache.find_store_self,
      exceptBindOk]
  · simp only [NumEdges.get_val, EdgeCache.find_store_self]
  · intro c2 s2 d2 r2 v hhit
    simp only [NumEdges.get_val, hhit]

/-- **C7, witness.** The cache behaviour at a concrete triple: with node
counts `{a: 4, b: 5}` and an empty cache, resolving `(a, rel, b)`
derives and stores 20; resolving again returns the cached 20 with the
state unchanged; and the stored entry is treated as a hit. -/
theorem claim_C7_witness :
    (NumEdges.get_val ⟨some (.inr []), ⟨some (.inr [("a", 4), ("b", 5)])⟩⟩
        (some ("a", "rel", "b")) =
      .ok (20, ⟨some (.inr (EdgeCache.store [] "a" "b" "rel" 20)),
        ⟨some (.inr [("a", 4), ("b", 5)])⟩⟩)) ∧
    (NumEdges.get_val ⟨some (.inr (EdgeCache.store [] "a" "b" "rel" 20)),
        ⟨some (.inr [("a", 4), ("b", 5)])⟩⟩ (some ("a", "rel", "b")) =
      .ok (20, ⟨some (.inr (EdgeCache.store [] "a" "b" "rel" 20)),
        ⟨some (.inr [("a", 4), ("b", 5)])⟩⟩)) :=
  ⟨(claim_C7_edge_count_cache [] ⟨some (.inr [("a", 4), ("b", 5)])⟩
      ("a") "rel" "b" 4 5 (by rfl) (by rfl) (by rfl)).1,
   (claim_C7_edge_count_cache [] ⟨some (.inr [("a", 4), ("b", 5)])⟩
      ("a") "rel" "b" 4 5 (by rfl) (by rfl) (by rfl)).2.1⟩

/-! ### Claim C9: construction-time validation of the mapping policies -/

theorem exceptBindErr {ε α β : Type} (e : ε) (f : α → Except ε β) :
    ((Except.error e : Except ε α) >>= f) = .error e := rfl

theorem exceptOkIsOk {ε α : Type} (a : α) :
    (Except.ok a : Except ε α).isOk = true := rfl

theorem exceptErrIsOk {ε α : Type} (e : ε) :
    (Except.error e : Except ε α).isOk = false := rfl

theorem attr_validate_key_val_isOk (k v : PyVal) :
    (AttrNamePadding.validate_key_val k v).isOk =
      (isStrKey k && isAcceptedAttrVal v) := by
  cases k <;> cases v <;> rfl

theorem node_validate_key_val_isOk (k v : PyVal) :
    (NodeTypePadding.validate_key_val k v).isOk =
      (isStrKey k && isAcceptedTypeVal v) := by
  cases k <;> cases v <;> rfl

theorem edge_validateTup_isOk (es : List PyVal) :
    (EdgeTypePadding.validate_key_val.validateTup es).isOk =
      (decide (es.length = 3) && es.all isStrKey) := by
  have hfun : (fun e : PyVal => match e with | .pystr _ => true | _ => false) =
      isStrKey := by
    funext e; cases e <;> rfl
  unfold EdgeTypePadding.validate_key_val.validateTup
  rw [hfun]
  by_cases h3 : es.length = 3
  · by_cases hall : es.all isStrKey = true
    · simp [h3, hall, exceptOkIsOk]
    · simp only [Bool.not_eq_true] at hall
      simp [h3, hall, exceptErrIsOk]
  · simp [h3, exceptErrIsOk]

theorem edge_validate_key_val_isOk (k v : PyVal) :
    (EdgeTypePadding.validate_key_val k v).isOk =
      (isEdgeKeyShape k && isAcceptedTypeVal v) := by
  cases k <;> cases v <;>
    simp [EdgeTypePadding.validate_key_val, edge_validateTup_isOk,
      isEdgeKeyShape, isAcceptedTypeVal, exceptOkIsOk, exceptErrIsOk]

theorem validate_attr_entries_isOk (entries : List (PyVal × PyVal)) :
    (validateEntries AttrNamePadding.validate_key_val entries).isOk =
      entries.all (fun kv => isStrKey kv.1 && isAcceptedAttrVal kv.2) := by
  induction entries with
  | nil => rfl
  | cons kv rest ih =>
    obtain ⟨k, v⟩ := kv
    have hk := attr_validate_key_val_isOk k v
    cases h : AttrNamePadding.validate_key_val k v with
    | ok u =>
      cases u
      rw [h] at hk
      have htrue : (isStrKey k && isAcceptedAttrVal v) = true := by
        rw [← hk]; exact exceptOkIsOk _
      simp only [validateEntries, h, exceptBindOk, ih, List.all_cons]
      simp [htrue]
    | error e =>
      rw [h] at hk
      have hfalse : (isStrKey k && isAcceptedAttrVal v) = false := by
        rw [← hk]; exact exceptErrIsOk _
      simp only [validateEntries, h, exceptBindErr, List.all_cons]
      simp [hfalse, exceptErrIsOk]

theorem validate_node_entries_isOk (entries : List (PyVal × PyVal)) :
    (validateEntries NodeTypePadding.validate_key_val entries).isOk =
      entries.all (fun kv => isStrKey kv.1 && isAcceptedTypeVal kv.2) := by
  induction entries with
  | nil => rfl
  | cons kv rest ih =>
    obtain ⟨k, v⟩ := kv
    have hk := node_validate_key_val_isOk k v
    cases h : NodeTypePadding.validate_key_val k v with
    | ok u =>
      cases u
      rw [h] at hk
      have htrue : (isStrKey k && isAcceptedTypeVal v) = true := by
        rw [← hk]; exact exceptOkIsOk _
      simp only [validateEntries, h, exceptBindOk, ih, List.all_cons]
      simp [htrue]
    | error e =>
      rw [h] at hk
      have hfalse : (isStrKey k && isAcceptedTypeVal v) = false := by
        rw [← hk]; exact exceptErrIsOk _
      simp only [validateEntries, h, exceptBindErr, List.all_cons]
      simp [hfalse, exceptErrIsOk]

theorem validate_edge_entries_isOk (entries : List (PyVal × PyVal)) :
    (validateEntries EdgeTypePadding.validate_key_val entries).isOk =
      entries.all (fun kv => isEdgeKeyShape kv.1 && isAcceptedTypeVal kv.2) := by
  induction entries with
  | nil => rfl
  | cons kv rest ih =>
    obtain ⟨k, v⟩ := kv
    have hk := edge_validate_key_val_isOk k v
    cases h : EdgeTypePadding.validate_key_val k v with
    | ok u =>
      cases u
      rw [h] at hk
      have htrue : (isEdgeKeyShape k && isAcceptedTypeVal v) = true := by
        rw [← hk]; exact exceptOkIsOk _
      simp only [validateEntries, h, exceptBindOk, ih, List.all_cons]
      simp [htrue]
    | error e =>
      rw [h] at hk
      have hfalse : (isEdgeKeyShape k && isAcceptedTypeVal v) = false := by
        rw [← hk]; exact exceptErrIsOk _
      simp only [validateEntries, h, exceptBindErr, List.all_cons]
      simp [hfalse, exceptErrIsOk]

/-- **C9.** Policy construction validates eagerly: construction from a
dict succeeds exactly when every key matches the expected key shape and
every value's type is in the variant's accepted set (for edge-type
policies the key shape is a tuple of exactly 3 string elements); a
non-mapping argument is rejected for every variant; a scalar mapping
value is auto-wrapped into a uniform policy (so resolving that key
yields the scalar); and in particular constructing an attribute-name
policy with the 2-tuple key `(x, y)` fails with a construction-time
type error. -/
theorem claim_C9_policy_construction_validation :
    (∀ (entries : List (PyVal × PyVal)) (d : Rat),
      (AttrNamePadding.make (.pydict entries) d).isOk =
        entries.all (fun kv => isStrKey kv.1 && isAcceptedAttrVal kv.2)) ∧
    (∀ (entries : List (PyVal × PyVal)) (d : Rat),
      (NodeTypePadding.make (.pydict entries) d).isOk =
        entries.all (fun kv => isStrKey kv.1 && isAcceptedTypeVal kv.2)) ∧
    (∀ (entries : List (PyVal × PyVal)) (d : Rat),
      (EdgeTypePadding.make (.pydict entries) d).isOk =
        entries.all (fun kv => isEdgeKeyShape kv.1 && isAcceptedTypeVal kv.2)) ∧
    (∀ (pv : PyVal) (d : Rat), pv.isDict = false → pv.isNone = false →
      (AttrNamePadding.make pv d).isOk = false ∧
      (NodeTypePadding.make pv d).isOk = false ∧
      (EdgeTypePadding.make pv d).isOk = false) ∧
    (∀ (d : Rat) (s : String) (n : Int) (rest : List (PyVal × PyVal))
        (a : AttrNamePadding),
      AttrNamePadding.make (.pydict ((.pystr s, .pyint n) :: rest)) d = .ok a →
      a.get_val (some s) = (n : Rat)) ∧
    ((AttrNamePadding.make
        (.pydict [(.pytup [.pystr ("x"), .pystr ("y")], .pyfloat 1)]) 0).isOk =
      false) := by
  refine ⟨?_, ?_, ?_, ?_, ?_, by rfl⟩
  · intro entries d
    have hv2 := validate_attr_entries_isOk entries
    simp only [AttrNamePadding.make, PyVal.isNone, Bool.false_eq_true,
      if_false]
    cases hv : validateEntries AttrNamePadding.validate_key_val entries with
    | ok u =>
      cases u
      rw [hv] at hv2
      rw [← hv2]
      simp [exceptBindOk, exceptOkIsOk]
    | error e =>
      rw [hv] at hv2
      rw [← hv2]
      simp [exceptBindErr, exceptErrIsOk]
  · intro entries d
    have hv2 := validate_node_entries_isOk entries
    simp only [NodeTypePadding.make, PyVal.isNone, Bool.false_eq_true,
      if_false]
    cases hv : validateEntries NodeTypePadding.validate_key_val entries with
    | ok u =>
      cases u
      rw [hv] at hv2
      rw [← hv2]
      simp [exceptBindOk, exceptOkIsOk]
    | error e =>
      rw [hv] at hv2
      rw [← hv2]
      simp [exceptBindErr, exceptErrIsOk]
  · intro entries d
    have hv2 := validate_edge_entries_isOk entries
    simp only [EdgeTypePadding.make, PyVal.isNone, Bool.false_eq_true,
      if_false]
    cases hv : validateEntries EdgeTypePadding.validate_key_val entries with
    | ok u =>
      cases u
      rw [hv] at hv2
      rw [← hv2]
      simp [exceptBindOk, exceptOkIsOk]
    | error e =>
      rw [hv] at hv2
      rw [← hv2]
      simp [exceptBindErr, exceptErrIsOk]
  · intro pv d hd hn
    cases pv with
    | pydict entries => simp [PyVal.isDict] at hd
    | pynone => simp [PyVal.isNone] at hn
    | pyint n => exact ⟨rfl, rfl, rfl⟩
    | pyfloat q => exact ⟨rfl, rfl, rfl⟩
    | pystr s => exact ⟨rfl, rfl, rfl⟩
    | pytup xs => exact ⟨rfl, rfl, rfl⟩
    | pyuniform u => exact ⟨rfl, rfl, rfl⟩
    | pyattrname a2 => exact ⟨rfl, rfl, rfl⟩
  · intro d s n rest a h
    simp only [AttrNamePadding.make, PyVal.isNone, Bool.false_eq_true,
      if_false] at h
    cases hv : validateEntries AttrNamePadding.validate_key_val
        ((.pystr s, .pyint n) :: rest) with
    | ok u =>
      cases u
      rw [hv] at h
      simp only [exceptBindOk] at h
      cases h
      simp [AttrNamePadding.get_val, AttrNamePadding.processEntries, alookup,
        UniformPadding.get_val]
    | error e =>
      rw [hv] at h
      simp only [exceptBindErr] at h
      cases h

/-- **C9, witness.** The validation at concrete inputs: a bare float is
not a mapping and is rejected; the dict with the scalar entry
`{attr: 7}` constructs a policy that resolves `attr` to the wrapped 7. -/
theorem claim_C9_witness :
    (AttrNamePadding.make (.pyfloat 2) 0).isOk = false ∧
    AttrNamePadding.get_val ⟨[("attr", ⟨7⟩)], 0⟩ (some ("attr")) =
      ((7 : Int) : Rat) :=
  ⟨(claim_C9_policy_construction_validation.2.2.2.1 (.pyfloat 2) 0
      (by rfl) (by rfl)).1,
   claim_C9_policy_construction_validation.2.2.2.2.1 0 ("attr") 7 []
      ⟨[("attr", ⟨7⟩)], 0⟩ (by rfl)⟩

/-! ### Support lemmas on the store-level operations -/

theorem alookup_removeKeys_not_mem (attrs : List (String × Tensor))
    (ks : List String) (k : String) (h : k ∉ ks) :
    alookup (removeKeys attrs ks) k = alookup attrs k := by
  induction attrs with
  | nil => rfl
  | cons kv rest ih =>
    obtain ⟨k0, v0⟩ := kv
    by_cases hk0 : k0 ∈ ks
    · have hne : ¬ k0 = k := fun hc => h (hc ▸ hk0)
      simp only [removeKeys, if_pos hk0, ih, alookup, if_neg hne]
    · simp only [removeKeys, if_neg hk0, alookup]
      by_cases he : k0 = k
      · simp [he]
      · simp [he, ih]

theorem not_mem_akeys_removeKeys (attrs : List (String × Tensor))
    (ks : List String) (k : String) (h : k ∈ ks) :
    k ∉ akeys (removeKeys attrs ks) := by
  induction attrs with
  | nil => simp [removeKeys, akeys]
  | cons kv rest ih =>
    obtain ⟨k0, v0⟩ := kv
    by_cases hk0 : k0 ∈ ks
    · simpa [removeKeys, if_pos hk0] using ih
    · simp only [removeKeys, if_neg hk0, akeys, List.map_cons, List.mem_cons]
      intro hc
      rcases hc with hc | hc
      · exact hk0 (hc ▸ h)
      · exact ih hc

theorem removeKeys_sublist (attrs : List (String × Tensor))
    (ks : List String) : (removeKeys attrs ks).Sublist attrs := by
  induction attrs with
  | nil => simp [removeKeys]
  | cons kv rest ih =>
    obtain ⟨k0, v0⟩ := kv
    by_cases hk0 : k0 ∈ ks
    · simp only [removeKeys, if_pos hk0]
      exact ih.cons _
    · simp only [removeKeys, if_neg hk0]
      exact ih.cons₂ _

theorem mem_akeys_removeKeys_of_mem (attrs : List (String × Tensor))
    (ks : List String) (k : String) (hm : k ∈ akeys attrs) (h : k ∉ ks) :
    k ∈ akeys (removeKeys attrs ks) := by
  induction attrs with
  | nil => simp [akeys] at hm
  | cons kv rest ih =>
    obtain ⟨k0, v0⟩ := kv
    by_cases hk0 : k0 ∈ ks
    · have hne : ¬ k = k0 := fun hc => h (hc ▸ hk0)
      rcases (by simpa [akeys] using hm : k = k0 ∨ k ∈ akeys rest) with h1 | h2
      · exact absurd h1 hne
      · simpa [removeKeys, if_pos hk0] using ih h2
    · rcases (by simpa [akeys] using hm : k = k0 ∨ k ∈ akeys rest) with h1 | h2
      · simp [removeKeys, if_neg hk0, akeys, h1]
      · simp only [removeKeys, if_neg hk0, akeys, List.map_cons, List.mem_cons]
        exact Or.inr (ih h2)

theorem padNodeAttrs_akeys (p : PadState) (nt : Option String) (k : Nat) :
    ∀ (names : List String) (attrs attrs' : List (String × Tensor)),
      padNodeAttrs p nt k names attrs = .ok attrs' →
      akeys attrs' = akeys attrs := by
  intro names
  induction names with
  | nil =>
    intro attrs attrs' h
    cases h
    rfl
  | cons a rest ih =>
    intro attrs attrs' h
    simp only [padNodeAttrs] at h
    cases hl : alookup attrs a with
    | none => simp only [hl] at h; cases h
    | some t =>
      simp only [hl] at h
      cases hp : pad_tensor_dim t (catDim a) k (p.get_node_padding a nt) with
      | error e =>
        rw [hp] at h
        simp only [exceptBindErr] at h
        cases h
      | ok t2 =>
        rw [hp] at h
        simp only [exceptBindOk] at h
        have h2 := ih (aset attrs a t2) attrs' h
        rw [h2]
        exact akeys_aset_of_mem attrs a t2 (alookup_mem_keys attrs a t hl)

theorem padEdgeAttrs_akeys (p : PadState) (et : Option EdgeTypeKey) (k : Nat)
    (sv dv : Rat) :
    ∀ (names : List String) (attrs attrs' : List (String × Tensor)),
      padEdgeAttrs p et k sv dv names attrs = .ok attrs' →
      akeys attrs' = akeys attrs := by
  intro names
  induction names with
  | nil =>
    intro attrs attrs' h
    cases h
    rfl
  | cons a rest ih =>
    intro attrs attrs' h
    simp only [padEdgeAttrs] at h
    cases hl : alookup attrs a with
    | none => simp only [hl] at h; cases h
    | some t =>
      simp only [hl] at h
      by_cases hei : a = "edge_index"
      · rw [if_pos hei] at h
        cases hp : pad_edge_index t k sv dv with
        | error e =>
          rw [hp] at h
          simp only [exceptBindErr] at h
          cases h
        | ok t2 =>
          rw [hp] at h
          simp only [exceptBindOk] at h
          have h2 := ih (aset attrs a t2) attrs' h
          rw [h2]
          exact akeys_aset_of_mem attrs a t2 (alookup_mem_keys attrs a t hl)
      · rw [if_neg hei] at h
        cases hp : pad_tensor_dim t (catDim a) k
            (p.get_edge_padding a et) with
        | error e =>
          rw [hp] at h
          simp only [exceptBindErr] at h
          cases h
        | ok t2 =>
          rw [hp] at h
          simp only [exceptBindOk] at h
          have h2 := ih (aset attrs a t2) attrs' h
          rw [h2]
          exact akeys_aset_of_mem attrs a t2 (alookup_mem_keys attrs a t hl)

/-- A successful node-store pad only rewrites attribute tensors: the key
set and every other store field are unchanged. -/
theorem pad_node_store_shape (p : PadState) (s : Store) (nt : Option String)
    (s' : Store) (h : p.pad_node_store s nt = .ok s') :
    akeys s'.attrs = akeys s.attrs ∧ s'.node_keys = s.node_keys ∧
    s'.edge_keys = s.edge_keys ∧ s'.num_nodes_hint = s.num_nodes_hint ∧
    s'.num_edges_hint = s.num_edges_hint := by
  simp only [PadState.pad_node_store] at h
  by_cases he : ((akeys s.attrs).filter
      (fun a => s.is_node_attr a && p.should_pad_node_attr a)).isEmpty
  · rw [if_pos he] at h
    cases h
    exact ⟨rfl, rfl, rfl, rfl, rfl⟩
  · rw [if_neg he] at h
    cases hg : p.max_num_nodes.get_val nt with
    | error e =>
      rw [hg] at h
      simp only [exceptBindErr] at h
      cases h
    | ok target =>
      rw [hg] at h
      simp only [exceptBindOk] at h
      by_cases hlt : ((s.num_nodes : Int) < target)
      · rw [if_pos hlt] at h
        cases hpa : padNodeAttrs p nt (target - (s.num_nodes : Int)).toNat
            ((akeys s.attrs).filter
              (fun a => s.is_node_attr a && p.should_pad_node_attr a))
            s.attrs with
        | error e =>
          rw [hpa] at h
          simp only [exceptBindErr] at h
          cases h
        | ok attrs2 =>
          rw [hpa] at h
          simp only [exceptBindOk] at h
          cases h
          exact ⟨padNodeAttrs_akeys _ _ _ _ _ _ hpa, rfl, rfl, rfl, rfl⟩
      · rw [if_neg hlt] at h
        cases h

/-- A successful edge-store pad only rewrites attribute tensors and the
edge-count cache: the store's key set and other fields are unchanged,
and the transform state changes at most in `max_num_edges`, whose
`num_nodes` sub-resolver is itself unchanged. -/
theorem pad_edge_store_shape (p : PadState) (s : Store)
    (nn : Nat ⊕ (Nat × Nat)) (et : Option EdgeTypeKey) (p' : PadState)
    (s' : Store) (h : p.pad_edge_store s nn et = .ok (p', s')) :
    akeys s'.attrs = akeys s.attrs ∧ s'.node_keys = s.node_keys ∧
    s'.edge_keys = s.edge_keys ∧ s'.num_nodes_hint = s.num_nodes_hint ∧
    s'.num_edges_hint = s.num_edges_hint ∧
    p'.max_num_nodes = p.max_num_nodes ∧
    p'.exclude_keys = p.exclude_keys ∧ p'.node_pad = p.node_pad ∧
    p'.edge_pad = p.edge_pad ∧
    p'.node_additional_attrs_pad = p.node_additional_attrs_pad ∧
    p'.max_num_edges.num_nodes = p.max_num_edges.num_nodes := by
  have hframe : ∀ (key : Option EdgeTypeKey) (v : Int) (e' : NumEdges),
      p.max_num_edges.get_val key = .ok (v, e') →
      e'.num_nodes = p.max_num_edges.num_nodes := by
    intro key v e' hg
    simp only [NumEdges.get_val] at hg
    cases hv : p.max_num_edges.value with
    | none => rw [hv] at hg; cases hg
    | some sv =>
      cases sv with
      | inl n => rw [hv] at hg; cases hg; rfl
      | inr cache =>
        rw [hv] at hg
        cases key with
        | none => cases hg
        | some kk =>
          obtain ⟨src, rel, dst⟩ := kk
          simp only at hg
          cases hf : cache.find src dst rel with
          | some w => rw [hf] at hg; cases hg; rfl
          | none =>
            rw [hf] at hg
            cases ha : p.max_num_edges.num_nodes.get_val (some src) with
            | error e => rw [ha] at hg; cases hg
            | ok a =>
              rw [ha] at hg
              simp only [exceptBindOk] at hg
              cases hb : p.max_num_edges.num_nodes.get_val (some dst) with
              | error e => rw [hb] at hg; cases hg
              | ok b =>
                rw [hb] at hg
                simp only [exceptBindOk] at hg
                cases hf2 : (cache.store src dst rel (a * b)).find src dst
                    rel with
                | some w => rw [hf2] at hg; cases hg; rfl
                | none => rw [hf2] at hg; cases hg
  simp only [PadState.pad_edge_store] at h
  by_cases he : ((akeys s.attrs).filter
      (fun a => s.is_edge_attr a && p.should_pad_edge_attr a)).isEmpty
  · rw [if_pos he] at h
    cases h
    exact ⟨rfl, rfl, rfl, rfl, rfl, rfl, rfl, rfl, rfl, rfl, rfl⟩
  · rw [if_neg he] at h
    cases hg : p.max_num_edges.get_val et with
    | error e =>
      rw [hg] at h
      simp only [exceptBindErr] at h
      cases h
    | ok r =>
      obtain ⟨target, e2⟩ := r
      rw [hg] at h
      simp only [exceptBindOk] at h
      by_cases hle : ((s.num_edges : Int) ≤ target)
      · rw [if_pos hle] at h
        cases hpa : padEdgeAttrs { p with max_num_edges := e2 } et
            (target - (s.num_edges : Int)).toNat
            (splitNumNodes nn).1 (splitNumNodes nn).2
            ((akeys s.attrs).filter
              (fun a => s.is_edge_attr a && p.should_pad_edge_attr a))
            s.attrs with
        | error e =>
          rw [hpa] at h
          simp only [exceptBindErr] at h
          cases h
        | ok attrs2 =>
          rw [hpa] at h
          simp only [exceptBindOk] at h
          cases h
          exact ⟨padEdgeAttrs_akeys _ _ _ _ _ _ _ _ hpa, rfl, rfl, rfl, rfl,
            rfl, rfl, rfl, rfl, rfl, hframe et target e2 hg⟩
      · rw [if_neg hle] at h
        cases h

/-! ### Claim C8: shrink errors and the target-equals-current no-op -/

theorem aset_eq_of_alookup {κ ν : Type} [DecidableEq κ]
    (l : List (κ × ν)) (k : κ) (v : ν) (h : alookup l k = some v) :
    aset l k v = l := by
  induction l with
  | nil => cases h
  | cons p rest ih =>
    obtain ⟨k0, v0⟩ := p
    by_cases hk : k0 = k
    · subst hk
      simp only [alookup, if_pos rfl] at h
      cases h
      simp [aset]
    · simp only [alookup, if_neg hk] at h
      simp [aset, hk, ih h]

theorem mem_akeys_exists_alookup {κ ν : Type} [DecidableEq κ]
    (l : List (κ × ν)) (k : κ) (h : k ∈ akeys l) :
    ∃ v, alookup l k = some v := by
  induction l with
  | nil => simp [akeys] at h
  | cons p rest ih =>
    obtain ⟨k0, v0⟩ := p
    by_cases hk : k0 = k
    · exact ⟨v0, by simp [alookup, hk]⟩
    · rcases (by simpa [akeys] using h : k = k0 ∨ k ∈ akeys rest) with h1 | h2
      · exact absurd h1.symm hk
      · obtain ⟨v, hv⟩ := ih h2
        exact ⟨v, by simp [alookup, hk, hv]⟩

theorem pad_tensor_dim_zero (t : Tensor) (v : Rat) :
    pad_tensor_dim t 0 0 v = .ok t := by
  cases t <;> simp [pad_tensor_dim]

theorem pad_edge_index_zero (rows : List (List Rat)) (sv dv : Rat)
    (hwf : Tensor.wf (.mat rows) = true) (hlen : 2 ≤ rows.length) :
    pad_edge_index (.mat rows) 0 sv dv = .ok (.mat rows) := by
  simp only [pad_edge_index, List.replicate, List.append_nil, List.map_id']
  by_cases hsd : sv = dv
  · simp [hsd]
  · rw [if_pos (by exact hsd)]
    match rows, hlen with
    | r0 :: r1 :: rest, _ =>
      simp only [Tensor.wf, List.all_cons, List.headD] at hwf
      have hr1 : r1.length = r0.length := by
        simp only [Bool.and_eq_true, decide_eq_true_eq] at hwf
        exact hwf.2.1
      simp only [modifyRow, overwriteFrom, List.headD]
      rw [hr1]
      simp [List.take_of_length_le (le_refl r1.length), hr1]

theorem padEdgeAttrs_zero (p : PadState) (et : Option EdgeTypeKey)
    (sv dv : Rat) :
    ∀ (names : List String) (attrs : List (String × Tensor)),
      (∀ a ∈ names, ∃ t, alookup attrs a = some t ∧ t.wf = true ∧
        (a = "edge_index" → ∃ rows, t = .mat rows ∧ 2 ≤ rows.length)) →
      padEdgeAttrs p et 0 sv dv names attrs = .ok attrs := by
  intro names
  induction names with
  | nil => intro attrs _; rfl
  | cons a rest ih =>
    intro attrs hyp
    obtain ⟨t, hl, hwf, hsh⟩ := hyp a (List.mem_cons_self a rest)
    simp only [padEdgeAttrs, hl]
    by_cases hei : a = "edge_index"
    · obtain ⟨rows, hT, hlen⟩ := hsh hei
      subst hT
      rw [if_pos hei, pad_edge_index_zero rows sv dv hwf hlen]
      simp only [exceptBindOk, aset_eq_of_alookup attrs a _ hl]
      exact ih attrs (fun b hb => hyp b (List.mem_cons_of_mem a hb))
    · rw [if_neg hei]
      have hcd : catDim a = 0 := by simp [catDim, hei]
      rw [hcd, pad_tensor_dim_zero]
      simp only [exceptBindOk, aset_eq_of_alookup attrs a _ hl]
      exact ih attrs (fun b hb => hyp b (List.mem_cons_of_mem a hb))

/-- **C8.** For every store with at least one qualifying attribute, node
padding fails with the invariant-violation error carrying both numbers
whenever the resolved target node count is not strictly greater than the
current node count; edge padding fails with the corresponding error
whenever the resolved target edge count is strictly below the current
edge count; and when the target edge count equals the current edge
count, edge padding succeeds and leaves every edge attribute unchanged
(a pad of length zero). -/
theorem claim_C8_shrink_errors_and_noop :
    (∀ (p : PadState) (s : Store) (nt : Option String) (target : Int),
      ((akeys s.attrs).filter
        (fun a => s.is_node_attr a && p.should_pad_node_attr a)) ≠ [] →
      p.max_num_nodes.get_val nt = .ok target →
      target ≤ (s.num_nodes : Int) →
      p.pad_node_store s nt =
        .error ("The number of nodes after padding (" ++ toString target ++
          ") must be greater than the number of nodes in the data object (" ++
          toString ((s.num_nodes : Int)) ++ ").")) ∧
    (∀ (p : PadState) (s : Store) (nn : Nat ⊕ (Nat × Nat))
        (et : Option EdgeTypeKey) (target : Int) (e2 : NumEdges),
      ((akeys s.attrs).filter
        (fun a => s.is_edge_attr a && p.should_pad_edge_attr a)) ≠ [] →
      p.max_num_edges.get_val et = .ok (target, e2) →
      target < (s.num_edges : Int) →
      p.pad_edge_store s nn et =
        .error ("The number of edges after padding (" ++ toString target ++
          ") cannot be lower than the number of edges in the data object (" ++
          toString ((s.num_edges : Int)) ++ ").")) ∧
    (∀ (p : PadState) (s : Store) (nn : Nat ⊕ (Nat × Nat))
        (et : Option EdgeTypeKey) (e2 : NumEdges),
      p.max_num_edges.get_val et = .ok ((s.num_edges : Int), e2) →
      (∀ (a : String) (t : Tensor), alookup s.attrs a = some t →
        t.wf = true) →
      (∀ t : Tensor, alookup s.attrs ("edge_index") = some t →
        ∃ rows, t = .mat rows ∧ 2 ≤ rows.length) →
      ∃ p', p.pad_edge_store s nn et = .ok (p', s)) := by
  refine ⟨?_, ?_, ?_⟩
  · intro p s nt target hne hg hle
    have he : ¬ (((akeys s.attrs).filter
        (fun a => s.is_node_attr a && p.should_pad_node_attr a)).isEmpty
          = true) := by
      simpa [List.isEmpty_iff] using hne
    simp only [PadState.pad_node_store, if_neg he, hg, exceptBindOk,
      if_neg (not_lt.mpr hle)]
  · intro p s nn et target e2 hne hg hlt
    have he : ¬ (((akeys s.attrs).filter
        (fun a => s.is_edge_attr a && p.should_pad_edge_attr a)).isEmpty
          = true) := by
      simpa [List.isEmpty_iff] using hne
    simp only [PadState.pad_edge_store, if_neg he, hg, exceptBindOk,
      if_neg (not_le.mpr hlt)]
  · intro p s nn et e2 hg hwf hsh
    by_cases he : (((akeys s.attrs).filter
        (fun a => s.is_edge_attr a && p.should_pad_edge_attr a)).isEmpty
          = true)
    · exact ⟨p, by simp only [PadState.pad_edge_store, if_pos he]⟩
    · refine ⟨{ p with max_num_edges := e2 }, ?_⟩
      have hyp : ∀ a ∈ (akeys s.attrs).filter
          (fun a => s.is_edge_attr a && p.should_pad_edge_attr a),
          ∃ t, alookup s.attrs a = some t ∧ t.wf = true ∧
            (a = "edge_index" → ∃ rows, t = .mat rows ∧ 2 ≤ rows.length) := by
        intro a ha
        have hmem : a ∈ akeys s.attrs := List.mem_of_mem_filter ha
        obtain ⟨t, ht⟩ := mem_akeys_exists_alookup s.attrs a hmem
        exact ⟨t, ht, hwf a t ht, fun hei => hsh t (hei ▸ ht)⟩
      simp only [PadState.pad_edge_store, if_neg he, hg, exceptBindOk,
        if_pos (le_refl ((s.num_edges : Int))), sub_self, Int.toNat_zero]
      rw [padEdgeAttrs_zero _ _ _ _ _ _ hyp]
      rfl

/-- **C8, witness.** The three behaviours at concrete stores: target 2
against 3 current nodes fails with both numbers in the message; edge
target 1 against 2 current edges fails likewise; edge target 2 equal to
the 2 current edges succeeds leaving the store unchanged. -/
theorem claim_C8_witness :
    (PadState.pad_node_store
      ⟨⟨some (.inl 2)⟩, ⟨some (.inl 4), ⟨some (.inl 2)⟩⟩, [], .uni ⟨0⟩,
        .uni ⟨0⟩, [("train_mask", 0), ("val_mask", 0), ("test_mask", 0)]⟩
      ⟨[("x", .mat [[1], [2], [3]])], ["x"], [], 0, 0⟩ none =
      .error ("The number of nodes after padding (" ++ toString (2 : Int) ++
        ") must be greater than the number of nodes in the data object (" ++
        toString ((Store.num_nodes
          ⟨[("x", .mat [[1], [2], [3]])], ["x"], [], 0, 0⟩ : Int)) ++
        ").")) ∧
    (PadState.pad_edge_store
      ⟨⟨some (.inl 5)⟩, ⟨some (.inl 1), ⟨some (.inl 5)⟩⟩, [], .uni ⟨0⟩,
        .uni ⟨0⟩, [("train_mask", 0), ("val_mask", 0), ("test_mask", 0)]⟩
      ⟨[("edge_index", .mat [[0, 1], [1, 2]])], [], ["edge_index"], 0, 0⟩
      (.inl 3) none =
      .error ("The number of edges after padding (" ++ toString (1 : Int) ++
        ") cannot be lower than the number of edges in the data object (" ++
        toString ((Store.num_edges
          ⟨[("edge_index", .mat [[0, 1], [1, 2]])], [], ["edge_index"], 0,
            0⟩ : Int)) ++ ").")) ∧
    (∃ p', PadState.pad_edge_store
      ⟨⟨some (.inl 5)⟩, ⟨some (.inl 2), ⟨some (.inl 5)⟩⟩, [], .uni ⟨0⟩,
        .uni ⟨0⟩, [("train_mask", 0), ("val_mask", 0), ("test_mask", 0)]⟩
      ⟨[("edge_index", .mat [[0, 1], [1, 2]])], [], ["edge_index"], 0, 0⟩
      (.inl 3) none =
      .ok (p',
        ⟨[("edge_index", .mat [[0, 1], [1, 2]])], [], ["edge_index"], 0,
          0⟩)) := by
  refine ⟨?_, ?_, ?_⟩
  · exact claim_C8_shrink_errors_and_noop.1
      ⟨⟨some (.inl 2)⟩, ⟨some (.inl 4), ⟨some (.inl 2)⟩⟩, [], .uni ⟨0⟩,
        .uni ⟨0⟩, [("train_mask", 0), ("val_mask", 0), ("test_mask", 0)]⟩
      ⟨[("x", .mat [[1], [2], [3]])], ["x"], [], 0, 0⟩ none 2
      (by decide) (by rfl) (by decide)
  · exact claim_C8_shrink_errors_and_noop.2.1
      ⟨⟨some (.inl 5)⟩, ⟨some (.inl 1), ⟨some (.inl 5)⟩⟩, [], .uni ⟨0⟩,
        .uni ⟨0⟩, [("train_mask", 0), ("val_mask", 0), ("test_mask", 0)]⟩
      ⟨[("edge_index", .mat [[0, 1], [1, 2]])], [], ["edge_index"], 0, 0⟩
      (.inl 3) none 1 ⟨some (.inl 1), ⟨some (.inl 5)⟩⟩
      (by decide) (by rfl) (by decide)
  · refine claim_C8_shrink_errors_and_noop.2.2
      ⟨⟨some (.inl 5)⟩, ⟨some (.inl 2), ⟨some (.inl 5)⟩⟩, [], .uni ⟨0⟩,
        .uni ⟨0⟩, [("train_mask", 0), ("val_mask", 0), ("test_mask", 0)]⟩
      ⟨[("edge_index", .mat [[0, 1], [1, 2]])], [], ["edge_index"], 0, 0⟩
      (.inl 3) none ⟨some (.inl 2), ⟨some (.inl 5)⟩⟩ (by rfl) ?_ ?_
    · intro a t h
      by_cases ha : "edge_index" = a
      · simp only [alookup, if_pos ha] at h
        cases h
        rfl
      · simp only [alookup, if_neg ha] at h
        cases h
    · intro t h
      simp only [alookup, if_pos rfl] at h
      cases h
      exact ⟨[[0, 1], [1, 2]], rfl, by decide⟩

/-- **C3, counterexample.** In the claimed scenario (3 nodes, 2 edges,
`max_num_nodes = 5`, absent `max_num_edges`, default padding) the code
appends 23 connectivity columns whose source and destination indices all
equal 3 — `data.num_nodes` before node padding, the index of the first
padded node — not 4 as the claim states. -/
theorem claim_C3_counterexample :
    PadState.make (.int 5) .pynone .pynone .pynone none none =
      .ok ⟨⟨some (.inl 5)⟩, ⟨some (.inl 25), ⟨some (.inl 5)⟩⟩, [],
        .uni ⟨0⟩, .uni ⟨0⟩,
        [("train_mask", 0), ("val_mask", 0), ("test_mask", 0)]⟩ ∧
    PadState.call_data
      ⟨⟨some (.inl 5)⟩, ⟨some (.inl 25), ⟨some (.inl 5)⟩⟩, [],
        .uni ⟨0⟩, .uni ⟨0⟩,
        [("train_mask", 0), ("val_mask", 0), ("test_mask", 0)]⟩
      (c3Store [1] [2] [3]) =
      .ok (⟨⟨some (.inl 5)⟩, ⟨some (.inl 25), ⟨some (.inl 5)⟩⟩, [],
          .uni ⟨0⟩, .uni ⟨0⟩,
          [("train_mask", 0), ("val_mask", 0), ("test_mask", 0)]⟩,
        ⟨[("x", .mat [[1], [2], [3], [0], [0]]),
          ("edge_index", .mat [[0, 1] ++ List.replicate 23 3,
            [1, 2] ++ List.replicate 23 3])],
         ["x"], ["edge_index"], 0, 0⟩) ∧
    ¬ ((3 : Rat) = 4) := by
  exact ⟨rfl, rfl, by norm_num⟩

/-- **C3, amended.** For a homogeneous record with 3 nodes and 2 edges,
padded with `max_num_nodes = 5`, absent `max_num_edges` and default
padding 0.0: the node feature tensor grows from shape `[3, F]` to
`[5, F]` with the two appended rows all zero, and the connectivity
tensor grows from `[2, 2]` to `[2, 25]` by appending 23 new columns,
each appended column having source index = destination index = 3 (the
node count before padding, i.e. the index of the first padded node). -/
theorem claim_C3_homogeneous_scenario :
    ∀ (r0 r1 r2 : List Rat) (F : Nat) (p : PadState),
      r0.length = F → r1.length = F → r2.length = F →
      PadState.make (.int 5) .pynone .pynone .pynone none none = .ok p →
      p.call_data (c3Store r0 r1 r2) =
        .ok (p,
          ⟨[("x", .mat [r0, r1, r2, List.replicate F 0, List.replicate F 0]),
            ("edge_index", .mat [[0, 1] ++ List.replicate 23 3,
              [1, 2] ++ List.replicate 23 3])],
           ["x"], ["edge_index"], 0, 0⟩) := by
  intro r0 r1 r2 F p h0 h1 h2 hmk
  subst h0
  obtain rfl : p = ⟨⟨some (.inl 5)⟩, ⟨some (.inl 25), ⟨some (.inl 5)⟩⟩, [],
      .uni ⟨0⟩, .uni ⟨0⟩,
      [("train_mask", 0), ("val_mask", 0), ("test_mask", 0)]⟩ := by
    have h3 : (Except.ok (⟨⟨some (.inl 5)⟩,
        ⟨some (.inl 25), ⟨some (.inl 5)⟩⟩, [], .uni ⟨0⟩, .uni ⟨0⟩,
        [("train_mask", 0), ("val_mask", 0), ("test_mask", 0)]⟩ : PadState) :
        Except String PadState) = .ok p := hmk
    cases h3
    rfl
  rfl

/-- **C3, witness.** The amended scenario at `F = 2` with concrete node
features. -/
theorem claim_C3_witness :
    PadState.call_data
      ⟨⟨some (.inl 5)⟩, ⟨some (.inl 25), ⟨some (.inl 5)⟩⟩, [],
        .uni ⟨0⟩, .uni ⟨0⟩,
        [("train_mask", 0), ("val_mask", 0), ("test_mask", 0)]⟩
      (c3Store [1, 2] [3, 4] [5, 6]) =
      .ok (⟨⟨some (.inl 5)⟩, ⟨some (.inl 25), ⟨some (.inl 5)⟩⟩, [],
          .uni ⟨0⟩, .uni ⟨0⟩,
          [("train_mask", 0), ("val_mask", 0), ("test_mask", 0)]⟩,
        ⟨[("x", .mat [[1, 2], [3, 4], [5, 6], List.replicate 2 0,
            List.replicate 2 0]),
          ("edge_index", .mat [[0, 1] ++ List.replicate 23 3,
            [1, 2] ++ List.replicate 23 3])],
         ["x"], ["edge_index"], 0, 0⟩) :=
  claim_C3_homogeneous_scenario [1, 2] [3, 4] [5, 6] 2
    ⟨⟨some (.inl 5)⟩, ⟨some (.inl 25), ⟨some (.inl 5)⟩⟩, [],
      .uni ⟨0⟩, .uni ⟨0⟩,
      [("train_mask", 0), ("val_mask", 0), ("test_mask", 0)]⟩
    (by rfl) (by rfl) (by rfl) (by rfl)

/-! ### Inversion of the homogeneous `__call__` -/

/-- In the homogeneous path `max_num_edges` is a number or `None`
(asserted by `__call__`), and then a successful edge-store pad leaves
the whole transform state unchanged. -/
theorem pad_edge_store_homo_state (p : PadState) (s : Store)
    (nn : Nat ⊕ (Nat × Nat)) (et : Option EdgeTypeKey) (p' : PadState)
    (s' : Store)
    (hnum : (p.max_num_edges.is_number || p.max_num_edges.is_none) = true)
    (h : p.pad_edge_store s nn et = .ok (p', s')) : p' = p := by
  simp only [PadState.pad_edge_store] at h
  by_cases he : (((akeys s.attrs).filter
      (fun a => s.is_edge_attr a && p.should_pad_edge_attr a)).isEmpty
        = true)
  · rw [if_pos he] at h
    cases h
    rfl
  · rw [if_neg he] at h
    cases hv : p.max_num_edges.value with
    | none =>
      have hg : p.max_num_edges.get_val et = .error ("num_edges is None") := by
        simp only [NumEdges.get_val, hv]
      rw [hg] at h
      simp only [exceptBindErr] at h
      cases h
    | some sv =>
      cases sv with
      | inl n =>
        have hg : p.max_num_edges.get_val et =
            .ok (n, p.max_num_edges) := by
          simp only [NumEdges.get_val, hv]
        rw [hg] at h
        simp only [exceptBindOk] at h
        by_cases hle : ((s.num_edges : Int) ≤ n)
        · rw [if_pos hle] at h
          cases hpa : padEdgeAttrs { p with max_num_edges := p.max_num_edges }
              et (n - (s.num_edges : Int)).toNat
              (splitNumNodes nn).1 (splitNumNodes nn).2
              ((akeys s.attrs).filter
                (fun a => s.is_edge_attr a && p.should_pad_edge_attr a))
              s.attrs with
          | error e =>
            rw [hpa] at h
            simp only [exceptBindErr] at h
            cases h
          | ok attrs2 =>
            rw [hpa] at h
            simp only [exceptBindOk] at h
            cases h
            rfl
        · rw [if_neg hle] at h
          cases h
      | inr cache =>
        rw [NumEdges.is_number, NumEdges.is_none, hv] at hnum
        simp at hnum

/-- Full inversion of a successful homogeneous call: the transform state
is returned unchanged and the resulting store's key set is exactly the
input key set minus the excluded keys. -/
theorem call_data_spec (p : PadState) (d : Store) (p' : PadState)
    (s' : Store) (h : p.call_data d = .ok (p', s')) :
    p' = p ∧ akeys s'.attrs = akeys (removeKeys d.attrs p.exclude_keys) := by
  simp only [PadState.call_data] at h
  by_cases c1 : p.node_pad.isDataKind = true
  · rw [if_neg (not_not_intro c1)] at h
    by_cases c2 : p.edge_pad.isDataKind = true
    · rw [if_neg (not_not_intro c2)] at h
      by_cases c3 : p.max_num_nodes.is_number = true
      · rw [if_neg (not_not_intro c3)] at h
        by_cases c4 : (p.max_num_edges.is_number ||
            p.max_num_edges.is_none) = true
        · rw [if_neg (not_not_intro c4)] at h
          cases hes : p.pad_edge_store (d.deleteKeys p.exclude_keys)
              (.inl (d.deleteKeys p.exclude_keys).num_nodes) none with
          | error e =>
            rw [hes] at h
            simp only [exceptBindErr] at h
            cases h
          | ok r =>
            obtain ⟨pe, se⟩ := r
            rw [hes] at h
            simp only [exceptBindOk] at h
            cases hns : pe.pad_node_store se none with
            | error e =>
              rw [hns] at h
              simp only [exceptBindErr] at h
              cases h
            | ok s3 =>
              rw [hns] at h
              simp only [exceptBindOk] at h
              cases h
              have hpe : p' = p :=
                pad_edge_store_homo_state p _ _ none p' se c4 hes
              have hse := pad_edge_store_shape p _ _ none p' se hes
              have hs3 := pad_node_store_shape p' se none s' hns
              exact ⟨hpe, by rw [hs3.1, hse.1]; rfl⟩
        · rw [if_pos c4] at h
          cases h
      · rw [if_pos c3] at h
        cases h
    · rw [if_pos c2] at h
      cases h
  · rw [if_pos c1] at h
    cases h

/-! ### Detailed inversion of the edge-store pad -/

/-- A successful `get_val` keeps the node-count sub-resolver and leaves
the stored value non-`None`. -/
theorem numEdges_get_val_inv (e : NumEdges) (key : Option EdgeTypeKey)
    (v : Int) (e' : NumEdges) (h : e.get_val key = .ok (v, e')) :
    e'.num_nodes = e.num_nodes ∧ e'.is_none = false := by
  simp only [NumEdges.get_val] at h
  cases hv : e.value with
  | none => rw [hv] at h; cases h
  | some sv =>
    cases sv with
    | inl n =>
      rw [hv] at h
      cases h
      exact ⟨rfl, by simp [NumEdges.is_none, hv]⟩
    | inr cache =>
      rw [hv] at h
      cases key with
      | none => cases h
      | some kk =>
        obtain ⟨src, rel, dst⟩ := kk
        simp only at h
        cases hf : cache.find src dst rel with
        | some w =>
          rw [hf] at h
          cases h
          exact ⟨rfl, by simp [NumEdges.is_none, hv]⟩
        | none =>
          rw [hf] at h
          cases ha : e.num_nodes.get_val (some src) with
          | error er => rw [ha] at h; cases h
          | ok a =>
            rw [ha] at h
            simp only [exceptBindOk] at h
            cases hb : e.num_nodes.get_val (some dst) with
            | error er => rw [hb] at h; cases h
            | ok b =>
              rw [hb] at h
              simp only [exceptBindOk] at h
              cases hf2 : (cache.store src dst rel (a * b)).find src dst
                  rel with
              | some w =>
                rw [hf2] at h
                cases h
                exact ⟨rfl, by simp [NumEdges.is_none]⟩
              | none => rw [hf2] at h; cases h

/-- Complete case analysis of a successful `__pad_edge_store`: either no
attribute qualified and everything is unchanged, or the target was
resolved, found not below the current count, and every qualifying
attribute was padded. -/
theorem pad_edge_store_inv (p : PadState) (s : Store)
    (nn : Nat ⊕ (Nat × Nat)) (et : Option EdgeTypeKey) (p' : PadState)
    (s' : Store) (h : p.pad_edge_store s nn et = .ok (p', s')) :
    ((((akeys s.attrs).filter
        (fun a => s.is_edge_attr a && p.should_pad_edge_attr a)).isEmpty
        = true) ∧ p' = p ∧ s' = s) ∨
    (∃ (target : Int) (e2 : NumEdges) (attrs2 : List (String × Tensor)),
      ¬ (((akeys s.attrs).filter
        (fun a => s.is_edge_attr a && p.should_pad_edge_attr a)).isEmpty
        = true) ∧
      p.max_num_edges.get_val et = .ok (target, e2) ∧
      (s.num_edges : Int) ≤ target ∧
      padEdgeAttrs { p with max_num_edges := e2 } et
        (target - (s.num_edges : Int)).toNat
        (splitNumNodes nn).1 (splitNumNodes nn).2
        ((akeys s.attrs).filter
          (fun a => s.is_edge_attr a && p.should_pad_edge_attr a))
        s.attrs = .ok attrs2 ∧
      p' = { p with max_num_edges := e2 } ∧
      s' = { s with attrs := attrs2 }) := by
  simp only [PadState.pad_edge_store] at h
  by_cases he : (((akeys s.attrs).filter
      (fun a => s.is_edge_attr a && p.should_pad_edge_attr a)).isEmpty
        = true)
  · rw [if_pos he] at h
    cases h
    exact Or.inl ⟨he, rfl, rfl⟩
  · rw [if_neg he] at h
    cases hg : p.max_num_edges.get_val et with
    | error e =>
      rw [hg] at h
      simp only [exceptBindErr] at h
      cases h
    | ok r =>
      obtain ⟨target, e2⟩ := r
      rw [hg] at h
      simp only [exceptBindOk] at h
      by_cases hle : ((s.num_edges : Int) ≤ target)
      · rw [if_pos hle] at h
        cases hpa : padEdgeAttrs { p with max_num_edges := e2 } et
            (target - (s.num_edges : Int)).toNat
            (splitNumNodes nn).1 (splitNumNodes nn).2
            ((akeys s.attrs).filter
              (fun a => s.is_edge_attr a && p.should_pad_edge_attr a))
            s.attrs with
        | error e =>
          rw [hpa] at h
          simp only [exceptBindErr] at h
          cases h
        | ok attrs2 =>
          rw [hpa] at h
          simp only [exceptBindOk] at h
          cases h
          exact Or.inr ⟨target, e2, attrs2, he, rfl, hle, hpa, rfl, rfl⟩
      · rw [if_neg hle] at h
        cases h

/-- A successful edge-store pad never turns the edge-count resolver into
the `None` state. -/
theorem pad_edge_store_not_none (p : PadState) (s : Store)
    (nn : Nat ⊕ (Nat × Nat)) (et : Option EdgeTypeKey) (p' : PadState)
    (s' : Store) (h : p.pad_edge_store s nn et = .ok (p', s'))
    (hn : p.max_num_edges.is_none = false) :
    p'.max_num_edges.is_none = false := by
  rcases pad_edge_store_inv p s nn et p' s' h with ⟨_, hp, _⟩ | ⟨t, e2, a2, _, hg, _, _, hp, _⟩
  · rw [hp]; exact hn
  · rw [hp]
    exact (numEdges_get_val_inv p.max_num_edges et t e2 hg).2

theorem padEdgeAttrs_preserves_notin (p : PadState)
    (et : Option EdgeTypeKey) (k : Nat) (sv dv : Rat) :
    ∀ (names : List String) (attrs attrs' : List (String × Tensor))
      (a : String), a ∉ names →
      padEdgeAttrs p et k sv dv names attrs = .ok attrs' →
      alookup attrs' a = alookup attrs a := by
  intro names
  induction names with
  | nil =>
    intro attrs attrs' a _ h
    cases h
    rfl
  | cons b rest ih =>
    intro attrs attrs' a hna h
    have hab : a ≠ b := fun hc => hna (hc ▸ List.mem_cons_self b rest)
    have hnr : a ∉ rest := fun hc => hna (List.mem_cons_of_mem b hc)
    simp only [padEdgeAttrs] at h
    cases hl : alookup attrs b with
    | none => simp only [hl] at h; cases h
    | some t =>
      simp only [hl] at h
      by_cases hei : b = "edge_index"
      · rw [if_pos hei] at h
        cases hp : pad_edge_index t k sv dv with
        | error e =>
          rw [hp] at h
          simp only [exceptBindErr] at h
          cases h
        | ok t2 =>
          rw [hp] at h
          simp only [exceptBindOk] at h
          rw [ih (aset attrs b t2) attrs' a hnr h]
          exact alookup_aset_ne attrs a b t2 hab
      · rw [if_neg hei] at h
        cases hp : pad_tensor_dim t (catDim b) k
            (p.get_edge_padding b et) with
        | error e =>
          rw [hp] at h
          simp only [exceptBindErr] at h
          cases h
        | ok t2 =>
          rw [hp] at h
          simp only [exceptBindOk] at h
          rw [ih (aset attrs b t2) attrs' a hnr h]
          exact alookup_aset_ne attrs a b t2 hab

theorem padEdgeAttrs_lookup (p : PadState) (et : Option EdgeTypeKey)
    (k : Nat) (sv dv : Rat) :
    ∀ (names : List String) (attrs attrs' : List (String × Tensor))
      (a : String) (t t2 : Tensor),
      names.Nodup → a ∈ names →
      alookup attrs a = some t →
      (if a = "edge_index" then pad_edge_index t k sv dv
        else pad_tensor_dim t (catDim a) k (p.get_edge_padding a et)) =
        .ok t2 →
      padEdgeAttrs p et k sv dv names attrs = .ok attrs' →
      alookup attrs' a = some t2 := by
  intro names
  induction names with
  | nil =>
    intro attrs attrs' a t t2 _ hmem
    cases hmem
  | cons b rest ih =>
    intro attrs attrs' a t t2 hnd hmem hl hstep h
    simp only [padEdgeAttrs] at h
    by_cases hab : a = b
    · subst hab
      have hnr : a ∉ rest := (List.nodup_cons.mp hnd).1
      simp only [hl] at h
      by_cases hei : a = "edge_index"
      · rw [if_pos hei] at h
        rw [if_pos hei] at hstep
        rw [hstep] at h
        simp only [exceptBindOk] at h
        rw [padEdgeAttrs_preserves_notin p et k sv dv rest
          (aset attrs a t2) attrs' a hnr h]
        exact alookup_aset_self attrs a t2
      · rw [if_neg hei] at h
        rw [if_neg hei] at hstep
        rw [hstep] at h
        simp only [exceptBindOk] at h
        rw [padEdgeAttrs_preserves_notin p et k sv dv rest
          (aset attrs a t2) attrs' a hnr h]
        exact alookup_aset_self attrs a t2
    · have hmr : a ∈ rest := by
        rcases List.mem_cons.mp hmem with h1 | h2
        · exact absurd h1 hab
        · exact h2
      cases hlb : alookup attrs b with
      | none => simp only [hlb] at h; cases h
      | some tb =>
        simp only [hlb] at h
        by_cases hei : b = "edge_index"
        · rw [if_pos hei] at h
          cases hp : pad_edge_index tb k sv dv with
          | error e =>
            rw [hp] at h
            simp only [exceptBindErr] at h
            cases h
          | ok tb2 =>
            rw [hp] at h
            simp only [exceptBindOk] at h
            have hl2 : alookup (aset attrs b tb2) a = some t := by
              rw [alookup_aset_ne attrs a b tb2 hab]
              exact hl
            exact ih (aset attrs b tb2) attrs' a t t2
              (List.nodup_cons.mp hnd).2 hmr hl2 hstep h
        · rw [if_neg hei] at h
          cases hp : pad_tensor_dim tb (catDim b) k
              (p.get_edge_padding b et) with
          | error e =>
            rw [hp] at h
            simp only [exceptBindErr] at h
            cases h
          | ok tb2 =>
            rw [hp] at h
            simp only [exceptBindOk] at h
            have hl2 : alookup (aset attrs b tb2) a = some t := by
              rw [alookup_aset_ne attrs a b tb2 hab]
              exact hl
            exact ih (aset attrs b tb2) attrs' a t t2
              (List.nodup_cons.mp hnd).2 hmr hl2 hstep h

/-- `_pad_edge_index` on a 2-row connectivity tensor equals appending
`length` copies of the source placeholder to row 0 and of the
destination placeholder to row 1. -/
theorem pad_edge_index_rows (r0 r1 : List Rat) (k : Nat) (sv dv : Rat)
    (hw : r1.length = r0.length) :
    pad_edge_index (.mat [r0, r1]) k sv dv =
      .ok (.mat [r0 ++ List.replicate k sv, r1 ++ List.replicate k dv]) := by
  simp only [pad_edge_index, List.map_cons, List.map_nil, List.headD]
  by_cases hsd : sv = dv
  · subst hsd
    rw [if_neg (by simp)]
  · rw [if_pos (by exact hsd)]
    simp only [modifyRow, overwriteFrom]
    rw [List.take_append_of_le_length (le_of_eq hw.symm)]
    rw [List.take_of_length_le (le_of_eq hw)]
    have hlen : (r1 ++ List.replicate k sv).length - r0.length = k := by
      simp [hw]
    rw [hlen]
    rfl

/-- The connectivity attribute after a successful edge-store pad: the
first columns are the original ones and every appended column holds the
two placeholder values. -/
theorem pad_edge_store_edge_index (p : PadState) (s : Store)
    (nn : Nat ⊕ (Nat × Nat)) (et : Option EdgeTypeKey) (p' : PadState)
    (s' : Store) (h : p.pad_edge_store s nn et = .ok (p', s'))
    (r0 r1 : List Rat)
    (hl : alookup s.attrs ("edge_index") = some (.mat [r0, r1]))
    (hw : r1.length = r0.length)
    (hnd : (akeys s.attrs).Nodup)
    (hea : "edge_index" ∈ s.edge_keys)
    (hsp : p.should_pad_edge_attr ("edge_index") = true) :
    ∃ k, alookup s'.attrs ("edge_index") =
      some (.mat [r0 ++ List.replicate k (splitNumNodes nn).1,
                  r1 ++ List.replicate k (splitNumNodes nn).2]) := by
  have hmem : "edge_index" ∈ (akeys s.attrs).filter
      (fun a => s.is_edge_attr a && p.should_pad_edge_attr a) := by
    refine List.mem_filter.mpr ⟨alookup_mem_keys _ _ _ hl, ?_⟩
    simp [Store.is_edge_attr, hea, hsp]
  rcases pad_edge_store_inv p s nn et p' s' h with
    ⟨hemp, _, _⟩ | ⟨target, e2, attrs2, hne, hg, hle, hpa, hp, hs⟩
  · rw [List.isEmpty_iff] at hemp
    rw [hemp] at hmem
    cases hmem
  · refine ⟨(target - (s.num_edges : Int)).toNat, ?_⟩
    rw [hs]
    have hstep : (if ("edge_index") = "edge_index"
        then pad_edge_index (.mat [r0, r1])
          (target - (s.num_edges : Int)).toNat
          (splitNumNodes nn).1 (splitNumNodes nn).2
        else pad_tensor_dim (.mat [r0, r1]) (catDim ("edge_index"))
          (target - (s.num_edges : Int)).toNat
          (PadState.get_edge_padding { p with max_num_edges := e2 }
            "edge_index" et)) =
        .ok (.mat [r0 ++ List.replicate ((target - (s.num_edges : Int)).toNat)
            (splitNumNodes nn).1,
          r1 ++ List.replicate ((target - (s.num_edges : Int)).toNat)
            (splitNumNodes nn).2]) := by
      rw [if_pos rfl]
      exact pad_edge_index_rows r0 r1 _ _ _ hw
    exact padEdgeAttrs_lookup { p with max_num_edges := e2 } et _ _ _
      ((akeys s.attrs).filter
        (fun a => s.is_edge_attr a && p.should_pad_edge_attr a))
      s.attrs attrs2 ("edge_index") (.mat [r0, r1]) _
      (hnd.filter _) hmem hl hstep hpa

/-- Pointwise specification of the edge loop of the heterogeneous
`__call__`: the transform configuration is preserved (only the
edge-count cache may change), every edge type is kept in place, the key
set of every store is the input key set minus the exclusions, and the
connectivity attribute is padded with the endpoint stores' node counts
read from the (not yet padded) node stores. -/
theorem edge_phase_spec :
    ∀ (stores : List (EdgeTypeKey × Store)) (p : PadState)
      (ns : List (String × Store)) (p' : PadState)
      (out : List (EdgeTypeKey × Store)),
      PadState.edge_phase p ns stores = .ok (p', out) →
      (p'.max_num_nodes = p.max_num_nodes ∧
       p'.exclude_keys = p.exclude_keys ∧
       p'.node_pad = p.node_pad ∧ p'.edge_pad = p.edge_pad ∧
       p'.node_additional_attrs_pad = p.node_additional_attrs_pad ∧
       p'.max_num_edges.num_nodes = p.max_num_edges.num_nodes ∧
       (p.max_num_edges.is_none = false →
         p'.max_num_edges.is_none = false)) ∧
      List.Forall₂ (fun es es' =>
        es'.1 = es.1 ∧
        akeys es'.2.attrs = akeys (removeKeys es.2.attrs p.exclude_keys) ∧
        es'.2.node_keys = es.2.node_keys ∧
        es'.2.edge_keys = es.2.edge_keys ∧
        es'.2.num_nodes_hint = es.2.num_nodes_hint ∧
        es'.2.num_edges_hint = es.2.num_edges_hint ∧
        (∀ (r0 r1 : List Rat) (nsrc ndst : Store),
          alookup es.2.attrs ("edge_index") = some (.mat [r0, r1]) →
          r1.length = r0.length →
          (akeys es.2.attrs).Nodup →
          "edge_index" ∉ p.exclude_keys →
          "edge_index" ∈ es.2.edge_keys →
          p.max_num_edges.is_none = false →
          alookup ns es.1.1 = some nsrc →
          alookup ns es.1.2.2 = some ndst →
          ∃ k, alookup es'.2.attrs ("edge_index") =
            some (.mat [r0 ++ List.replicate k ((nsrc.num_nodes : Rat)),
              r1 ++ List.replicate k ((ndst.num_nodes : Rat))]))) stores
        out := by
  intro stores
  induction stores with
  | nil =>
    intro p ns p' out h
    cases h
    exact ⟨⟨rfl, rfl, rfl, rfl, rfl, rfl, fun hn => hn⟩, List.Forall₂.nil⟩
  | cons es rest ih =>
    intro p ns p' out h
    obtain ⟨et, s⟩ := es
    simp only [PadState.edge_phase] at h
    cases hfs : findNodeStore ns et.1 with
    | error e =>
      rw [hfs] at h
      simp only [exceptBindErr] at h
      cases h
    | ok nsrc0 =>
      rw [hfs] at h
      simp only [exceptBindOk] at h
      cases hfd : findNodeStore ns et.2.2 with
      | error e =>
        rw [hfd] at h
        simp only [exceptBindErr] at h
        cases h
      | ok ndst0 =>
        rw [hfd] at h
        simp only [exceptBindOk] at h
        cases hps : p.pad_edge_store (s.deleteKeys p.exclude_keys)
            (.inr (nsrc0.num_nodes, ndst0.num_nodes)) (some et) with
        | error e =>
          rw [hps] at h
          simp only [exceptBindErr] at h
          cases h
        | ok r =>
          obtain ⟨p2, s2⟩ := r
          rw [hps] at h
          simp only [exceptBindOk] at h
          cases hrest : PadState.edge_phase p2 ns rest with
          | error e =>
            rw [hrest] at h
            simp only [exceptBindErr] at h
            cases h
          | ok r2 =>
            obtain ⟨p3, out3⟩ := r2
            rw [hrest] at h
            simp only [exceptBindOk] at h
            cases h
            obtain ⟨hframe2, hrel2⟩ := ih p2 ns p' out3 hrest
            have hshape := pad_edge_store_shape p
              (s.deleteKeys p.exclude_keys) _ (some et) p2 s2 hps
            refine ⟨?_, ?_⟩
            · refine ⟨?_, ?_, ?_, ?_, ?_, ?_, ?_⟩
              · rw [hframe2.1, hshape.2.2.2.2.2.1]
              · rw [hframe2.2.1, hshape.2.2.2.2.2.2.1]
              · rw [hframe2.2.2.1, hshape.2.2.2.2.2.2.2.1]
              · rw [hframe2.2.2.2.1, hshape.2.2.2.2.2.2.2.2.1]
              · rw [hframe2.2.2.2.2.1, hshape.2.2.2.2.2.2.2.2.2.1]
              · rw [hframe2.2.2.2.2.2.1, hshape.2.2.2.2.2.2.2.2.2.2]
              · intro hn
                exact hframe2.2.2.2.2.2.2
                  (pad_edge_store_not_none p _ _ (some et) p2 s2 hps hn)
            · refine List.Forall₂.cons ⟨rfl, ?_, ?_, ?_, ?_, ?_, ?_⟩ ?_
              · rw [hshape.1]; rfl
              · rw [hshape.2.1]; rfl
              · rw [hshape.2.2.1]; rfl
              · rw [hshape.2.2.2.1]; rfl
              · rw [hshape.2.2.2.2.1]; rfl
              · intro r0 r1 nsrc ndst hl hw hnd hex hea hn hls hld
                have hsrc0 : nsrc0 = nsrc := by
                  simp only [findNodeStore, hls] at hfs
                  cases hfs
                  rfl
                have hdst0 : ndst0 = ndst := by
                  simp only [findNodeStore, hld] at hfd
                  cases hfd
                  rfl
                subst hsrc0
                subst hdst0
                have hl1 : alookup (s.deleteKeys p.exclude_keys).attrs
                    ("edge_index") = some (.mat [r0, r1]) := by
                  show alookup (removeKeys s.attrs p.exclude_keys)
                    "edge_index" = _
                  rw [alookup_removeKeys_not_mem s.attrs p.exclude_keys
                    ("edge_index") hex]
                  exact hl
                have hnd1 : (akeys (s.deleteKeys p.exclude_keys).attrs).Nodup
                    := by
                  show (akeys (removeKeys s.attrs p.exclude_keys)).Nodup
                  exact hnd.sublist
                    ((removeKeys_sublist s.attrs p.exclude_keys).map _)
                have hsp : p.should_pad_edge_attr ("edge_index") = true := by
                  simp [PadState.should_pad_edge_attr, hn]
                have := pad_edge_store_edge_index p
                  (s.deleteKeys p.exclude_keys)
                  (.inr (nsrc0.num_nodes, ndst0.num_nodes)) (some et) p2 s2
                  hps r0 r1 hl1 hw hnd1 hea hsp
                simpa [splitNumNodes] using this
              · refine hrel2.imp ?_
                intro a b hab
                obtain ⟨h1, h2, h3, h4, h5, h6, h7⟩ := hab
                refine ⟨h1, ?_, h3, h4, h5, h6, ?_⟩
                · rw [h2, hshape.2.2.2.2.2.2.1]
                · intro r0 r1 nsrc ndst hl hw hnd hex hea hn hls hld
                  exact h7 r0 r1 nsrc ndst hl hw hnd
                    (hshape.2.2.2.2.2.2.1 ▸ hex) hea
                    (pad_edge_store_not_none p _ _ (some et) p2 s2 hps hn)
                    hls hld

/-- Pointwise specification of the node loop of the heterogeneous
`__call__`: every node type is kept in place and the key set of every
store is the input key set minus the exclusions.  The transform state is
never modified by this loop. -/
theorem node_phase_spec :
    ∀ (stores : List (String × Store)) (p : PadState)
      (out : List (String × Store)),
      PadState.node_phase p stores = .ok out →
      List.Forall₂ (fun nsr nsr' =>
        nsr'.1 = nsr.1 ∧
        akeys nsr'.2.attrs = akeys (removeKeys nsr.2.attrs p.exclude_keys) ∧
        nsr'.2.node_keys = nsr.2.node_keys ∧
        nsr'.2.edge_keys = nsr.2.edge_keys ∧
        nsr'.2.num_nodes_hint = nsr.2.num_nodes_hint ∧
        nsr'.2.num_edges_hint = nsr.2.num_edges_hint) stores out := by
  intro stores
  induction stores with
  | nil =>
    intro p out h
    cases h
    exact List.Forall₂.nil
  | cons nsr rest ih =>
    intro p out h
    obtain ⟨nt, s⟩ := nsr
    simp only [PadState.node_phase] at h
    cases hns : p.pad_node_store (s.deleteKeys p.exclude_keys) (some nt) with
    | error e =>
      rw [hns] at h
      simp only [exceptBindErr] at h
      cases h
    | ok s2 =>
      rw [hns] at h
      simp only [exceptBindOk] at h
      cases hrest : PadState.node_phase p rest with
      | error e =>
        rw [hrest] at h
        simp only [exceptBindErr] at h
        cases h
      | ok out2 =>
        rw [hrest] at h
        simp only [exceptBindOk] at h
        cases h
        have hshape := pad_node_store_shape p (s.deleteKeys p.exclude_keys)
          (some nt) s2 hns
        refine List.Forall₂.cons ⟨rfl, ?_, ?_, ?_, ?_, ?_⟩ (ih p out2 hrest)
        · rw [hshape.1]; rfl
        · rw [hshape.2.1]; rfl
        · rw [hshape.2.2.1]; rfl
        · rw [hshape.2.2.2.1]; rfl
        · rw [hshape.2.2.2.2]; rfl

/-- Full inversion of a successful heterogeneous call, combining the
edge-phase and node-phase specifications. -/
theorem call_hetero_spec (p : PadState) (d : HeteroData) (p' : PadState)
    (d' : HeteroData) (h : p.call_hetero d = .ok (p', d')) :
    (p'.max_num_nodes = p.max_num_nodes ∧
     p'.exclude_keys = p.exclude_keys ∧
     p'.node_pad = p.node_pad ∧ p'.edge_pad = p.edge_pad ∧
     p'.node_additional_attrs_pad = p.node_additional_attrs_pad ∧
     p'.max_num_edges.num_nodes = p.max_num_edges.num_nodes) ∧
    List.Forall₂ (fun es es' =>
      es'.1 = es.1 ∧
      akeys es'.2.attrs = akeys (removeKeys es.2.attrs p.exclude_keys) ∧
      es'.2.node_keys = es.2.node_keys ∧
      es'.2.edge_keys = es.2.edge_keys ∧
      es'.2.num_nodes_hint = es.2.num_nodes_hint ∧
      es'.2.num_edges_hint = es.2.num_edges_hint ∧
      (∀ (r0 r1 : List Rat) (nsrc ndst : Store),
        alookup es.2.attrs ("edge_index") = some (.mat [r0, r1]) →
        r1.length = r0.length →
        (akeys es.2.attrs).Nodup →
        "edge_index" ∉ p.exclude_keys →
        "edge_index" ∈ es.2.edge_keys →
        p.max_num_edges.is_none = false →
        alookup d.node_stores es.1.1 = some nsrc →
        alookup d.node_stores es.1.2.2 = some ndst →
        ∃ k, alookup es'.2.attrs ("edge_index") =
          some (.mat [r0 ++ List.replicate k ((nsrc.num_nodes : Rat)),
            r1 ++ List.replicate k ((ndst.num_nodes : Rat))])))
      d.edge_stores d'.edge_stores ∧
    List.Forall₂ (fun nsr nsr' =>
      nsr'.1 = nsr.1 ∧
      akeys nsr'.2.attrs = akeys (removeKeys nsr.2.attrs p.exclude_keys) ∧
      nsr'.2.node_keys = nsr.2.node_keys ∧
      nsr'.2.edge_keys = nsr.2.edge_keys ∧
      nsr'.2.num_nodes_hint = nsr.2.num_nodes_hint ∧
      nsr'.2.num_edges_hint = nsr.2.num_edges_hint)
      d.node_stores d'.node_stores := by
  simp only [PadState.call_hetero] at h
  by_cases c1 : p.node_pad.isHeteroNodeKind = true
  · rw [if_neg (not_not_intro c1)] at h
    by_cases c2 : p.edge_pad.isHeteroEdgeKind = true
    · rw [if_neg (not_not_intro c2)] at h
      cases hep : PadState.edge_phase p d.node_stores d.edge_stores with
      | error e =>
        rw [hep] at h
        simp only [exceptBindErr] at h
        cases h
      | ok r =>
        obtain ⟨p2, es2⟩ := r
        rw [hep] at h
        simp only [exceptBindOk] at h
        cases hnp : PadState.node_phase p2 d.node_stores with
        | error e =>
          rw [hnp] at h
          simp only [exceptBindErr] at h
          cases h
        | ok ns2 =>
          rw [hnp] at h
          simp only [exceptBindOk] at h
          cases h
          obtain ⟨hframe, hedge⟩ :=
            edge_phase_spec d.edge_stores p d.node_stores p' es2 hep
          have hnode := node_phase_spec d.node_stores p' ns2 hnp
          refine ⟨⟨hframe.1, hframe.2.1, hframe.2.2.1, hframe.2.2.2.1,
            hframe.2.2.2.2.1, hframe.2.2.2.2.2.1⟩, hedge, ?_⟩
          refine hnode.imp ?_
          intro a b hab
          obtain ⟨h1, h2, h3, h4, h5, h6⟩ := hab
          exact ⟨h1, by rw [h2, hframe.2.1], h3, h4, h5, h6⟩
    · rw [if_pos c2] at h
      cases h
  · rw [if_pos c1] at h
    cases h

theorem forall₂_mem_right {α β : Type} {R : α → β → Prop} :
    ∀ {l : List α} {l' : List β}, List.Forall₂ R l l' →
      ∀ b ∈ l', ∃ a ∈ l, R a b := by
  intro l l' h
  induction h with
  | nil => intro b hb; cases hb
  | cons hr _ ih =>
    intro b hb
    rcases List.mem_cons.mp hb with hb1 | hb2
    · exact ⟨_, List.mem_cons_self _ _, hb1 ▸ hr⟩
    · obtain ⟨a, ha, hab⟩ := ih b hb2
      exact ⟨a, List.mem_cons_of_mem _ ha, hab⟩

theorem forall₂_mem_left {α β : Type} {R : α → β → Prop} :
    ∀ {l : List α} {l' : List β}, List.Forall₂ R l l' →
      ∀ a ∈ l, ∃ b ∈ l', R a b := by
  intro l l' h
  induction h with
  | nil => intro a ha; cases ha
  | cons hr _ ih =>
    intro a ha
    rcases List.mem_cons.mp ha with ha1 | ha2
    · exact ⟨_, List.mem_cons_self _ _, ha1 ▸ hr⟩
    · obtain ⟨b, hb, hab⟩ := ih a ha2
      exact ⟨b, List.mem_cons_of_mem _ hb, hab⟩

/-- **C1.** For every edge store padded by the heterogeneous
orchestrator, the connectivity attribute after padding keeps its first
`current_edge_count` columns unchanged, every appended column has its
source row equal to the source store's node count before node padding
and its destination row equal to the destination store's node count
before node padding (the node loop runs only after the whole edge loop);
and `_pad_edge_index` realizes this as a uniform pad with the source
placeholder followed by an overwrite of only the destination row of the
newly appended region, the overwrite happening exactly when the two
placeholder values differ. -/
theorem claim_C1_connectivity_padding :
    (∀ (r0 r1 : List Rat) (k : Nat) (sv dv : Rat), r1.length = r0.length →
      pad_edge_index (.mat [r0, r1]) k sv dv =
        .ok (.mat [r0 ++ List.replicate k sv, r1 ++ List.replicate k dv]) ∧
      pad_edge_index (.mat [r0, r1]) k sv dv =
        (if sv = dv
          then .ok (.mat [r0 ++ List.replicate k sv,
            r1 ++ List.replicate k sv])
          else .ok (.mat [r0 ++ List.replicate k sv,
            overwriteFrom (r1 ++ List.replicate k sv) r0.length dv]))) ∧
    (∀ (p : PadState) (d : HeteroData) (p' : PadState) (d' : HeteroData),
      p.call_hetero d = .ok (p', d') →
      List.Forall₂ (fun es es' =>
        es'.1 = es.1 ∧
        (∀ (r0 r1 : List Rat) (nsrc ndst : Store),
          alookup es.2.attrs ("edge_index") = some (.mat [r0, r1]) →
          r1.length = r0.length →
          (akeys es.2.attrs).Nodup →
          "edge_index" ∉ p.exclude_keys →
          "edge_index" ∈ es.2.edge_keys →
          p.max_num_edges.is_none = false →
          alookup d.node_stores es.1.1 = some nsrc →
          alookup d.node_stores es.1.2.2 = some ndst →
          ∃ k, alookup es'.2.attrs ("edge_index") =
            some (.mat [r0 ++ List.replicate k ((nsrc.num_nodes : Rat)),
              r1 ++ List.replicate k ((ndst.num_nodes : Rat))])))
        d.edge_stores d'.edge_stores) := by
  constructor
  · intro r0 r1 k sv dv hw
    refine ⟨pad_edge_index_rows r0 r1 k sv dv hw, ?_⟩
    by_cases hsd : sv = dv
    · subst hsd
      rw [if_pos rfl]
      simp only [pad_edge_index, List.map_cons, List.map_nil]
      rw [if_neg (by simp)]
    · rw [if_neg hsd]
      simp only [pad_edge_index, List.map_cons, List.map_nil, List.headD]
      rw [if_pos (by exact hsd)]
      rfl
  · intro p d p' d' h
    refine (call_hetero_spec p d p' d' h).2.1.imp ?_
    intro a b hab
    exact ⟨hab.1, hab.2.2.2.2.2.2⟩

/-- **C1, witness.** The two-step fill at a concrete tensor with
differing placeholders, and the heterogeneous orchestrator at a concrete
record with node types `a` (2 nodes, target 4) and `b` (3 nodes, target
5): the edge store for `(a, r, b)` is padded to the derived target 20
with source placeholder 2 and destination placeholder 3. -/
theorem claim_C1_witness :
    (pad_edge_index (.mat [[0, 1], [1, 2]]) 2 7 9 =
      .ok (.mat [[0, 1] ++ List.replicate 2 7,
        [1, 2] ++ List.replicate 2 9])) ∧
    (∃ k, alookup
      (⟨[("edge_index", .mat
          [[0, 2, 2, 2, 2, 2, 2, 2, 2, 2, 2, 2, 2, 2, 2, 2, 2, 2, 2, 2],
           [1, 3, 3, 3, 3, 3, 3, 3, 3, 3, 3, 3, 3, 3, 3, 3, 3, 3, 3, 3]])],
        [], ["edge_index"], 0, 0⟩ : Store).attrs ("edge_index") =
      some (.mat [[0] ++ List.replicate k
          ((Store.num_nodes ⟨[("x", .mat [[1], [2]])], ["x"], [], 0, 0⟩
            : Rat)),
        [1] ++ List.replicate k
          ((Store.num_nodes ⟨[("x", .mat [[3], [4], [5]])], ["x"], [], 0,
            0⟩ : Rat))])) := by
  constructor
  · exact (claim_C1_connectivity_padding.1 [0, 1] [1, 2] 2 7 9 (by rfl)).1
  · have h := claim_C1_connectivity_padding.2
      ⟨⟨some (.inr [("a", 4), ("b", 5)])⟩,
        ⟨some (.inr []), ⟨some (.inr [("a", 4), ("b", 5)])⟩⟩,
        [], .uni ⟨0⟩, .uni ⟨0⟩,
        [("train_mask", 0), ("val_mask", 0), ("test_mask", 0)]⟩
      { node_stores := [("a", ⟨[("x", .mat [[1], [2]])], ["x"], [], 0, 0⟩),
          ("b", ⟨[("x", .mat [[3], [4], [5]])], ["x"], [], 0, 0⟩)],
        edge_stores := [(("a", "r", "b"),
          ⟨[("edge_index", .mat [[0], [1]])], [], ["edge_index"], 0, 0⟩)] }
      ⟨⟨some (.inr [("a", 4), ("b", 5)])⟩,
        ⟨some (.inr [(("a", "b"), [("r", 20)])]),
          ⟨some (.inr [("a", 4), ("b", 5)])⟩⟩,
        [], .uni ⟨0⟩, .uni ⟨0⟩,
        [("train_mask", 0), ("val_mask", 0), ("test_mask", 0)]⟩
      { node_stores := [("a", ⟨[("x", .mat [[1], [2], [0], [0]])], ["x"],
          [], 0, 0⟩),
          ("b", ⟨[("x", .mat [[3], [4], [5], [0], [0]])], ["x"], [], 0, 0⟩)],
        edge_stores := [(("a", "r", "b"),
          ⟨[("edge_index", .mat
            [[0, 2, 2, 2, 2, 2, 2, 2, 2, 2, 2, 2, 2, 2, 2, 2, 2, 2, 2, 2],
             [1, 3, 3, 3, 3, 3, 3, 3, 3, 3, 3, 3, 3, 3, 3, 3, 3, 3, 3, 3]])],
          [], ["edge_index"], 0, 0⟩)] }
      (by rfl)
    cases h with
    | cons hr _ =>
      exact hr.2 [0] [1] ⟨[("x", .mat [[1], [2]])], ["x"], [], 0, 0⟩
        ⟨[("x", .mat [[3], [4], [5]])], ["x"], [], 0, 0⟩
        (by rfl) (by rfl) (by decide) (by decide) (by decide) (by rfl)
        (by rfl) (by rfl)

/-- **C2, counterexample.** The claim states that excluding the
connectivity attribute name is rejected at construction time and that
the connectivity attribute is always retained; in the code the
construction-time reserved key is `x` — building a `Pad` with
`exclude_keys = [edge_index]` succeeds — and processing then deletes
`edge_index` from the store: the padded result retains only `x`. -/
theorem claim_C2_counterexample :
    (PadState.make (.int 5) .pynone .pynone .pynone none
      (some ["edge_index"])).isOk = true ∧
    PadState.call_data
      ⟨⟨some (.inl 5)⟩, ⟨some (.inl 25), ⟨some (.inl 5)⟩⟩, ["edge_index"],
        .uni ⟨0⟩, .uni ⟨0⟩,
        [("train_mask", 0), ("val_mask", 0), ("test_mask", 0)]⟩
      (c3Store [1] [2] [3]) =
      .ok (⟨⟨some (.inl 5)⟩, ⟨some (.inl 25), ⟨some (.inl 5)⟩⟩,
          ["edge_index"], .uni ⟨0⟩, .uni ⟨0⟩,
          [("train_mask", 0), ("val_mask", 0), ("test_mask", 0)]⟩,
        ⟨[("x", .mat [[1], [2], [3], [0], [0]])],
         ["x"], ["edge_index"], 0, 0⟩) := by
  exact ⟨rfl, rfl⟩

/-- **C2, amended.** The construction-time reserved key is the node
feature attribute `x`, not the connectivity attribute: building a `Pad`
with `x` among `exclude_keys` is rejected, while any other exclusion set
(in particular one containing `edge_index`) passes that check.  After a
successful call, every attribute whose name is in `exclude_keys` is
absent from every store — including the connectivity attribute when it
was excluded; the connectivity attribute is retained exactly when it is
not excluded. -/
theorem claim_C2_exclusion :
    (∀ (mnn : MaxNumNodesArg) (mne : MaxNumEdgesArg)
        (npv epv : PadValueArg) (mpv : Option Rat) (ex : List String),
      "x" ∈ ex →
      (PadState.make mnn mne npv epv mpv (some ex)).isOk = false) ∧
    (∀ (n : Int) (mpv : Option Rat) (ex : List String),
      "x" ∉ ex →
      (PadState.make (.int n) .pynone .pynone .pynone mpv
        (some ex)).isOk = true) ∧
    (∀ (p : PadState) (d : Store) (p' : PadState) (s' : Store),
      p.call_data d = .ok (p', s') →
      (∀ k ∈ p.exclude_keys, k ∉ akeys s'.attrs) ∧
      ("edge_index" ∉ p.exclude_keys → "edge_index" ∈ akeys d.attrs →
        "edge_index" ∈ akeys s'.attrs)) ∧
    (∀ (p : PadState) (d : HeteroData) (p' : PadState) (d' : HeteroData),
      p.call_hetero d = .ok (p', d') →
      (∀ es' ∈ d'.edge_stores, ∀ k ∈ p.exclude_keys,
        k ∉ akeys es'.2.attrs) ∧
      (∀ ns' ∈ d'.node_stores, ∀ k ∈ p.exclude_keys,
        k ∉ akeys ns'.2.attrs) ∧
      (∀ es ∈ d.edge_stores, "edge_index" ∉ p.exclude_keys →
        "edge_index" ∈ akeys es.2.attrs →
        ∃ es' ∈ d'.edge_stores, es'.1 = es.1 ∧
          "edge_index" ∈ akeys es'.2.attrs)) := by
  refine ⟨?_, ?_, ?_, ?_⟩
  · intro mnn mne npv epv mpv ex hx
    simp only [PadState.make]
    cases h1 : NumNodes.make mnn with
    | error e => simp [exceptBindErr, exceptErrIsOk]
    | ok nn =>
      simp only [exceptBindOk]
      cases h2 : NumEdges.make mne nn with
      | error e => simp [exceptBindErr, exceptErrIsOk]
      | ok ne =>
        simp only [exceptBindOk, Option.getD]
        rw [if_pos hx]
        exact exceptErrIsOk _
  · intro n mpv ex hx
    have h1 : NumNodes.make (.int n) = .ok ⟨some (.inl n)⟩ := rfl
    have h2 : NumEdges.make .pynone ⟨some (.inl n)⟩ =
        .ok ⟨some (.inl (n * n)), ⟨some (.inl n)⟩⟩ := rfl
    have h3 : PadState.process_padding_argument .pynone ("node_pad_value") =
        .ok (.uni ⟨0⟩) := rfl
    have h4 : PadState.process_padding_argument .pynone ("edge_pad_value") =
        .ok (.uni ⟨0⟩) := rfl
    simp only [PadState.make, h1, h2, exceptBindOk, Option.getD]
    rw [if_neg hx]
    simp only [h3, h4, exceptBindOk]
    rfl
  · intro p d p' s' h
    have hspec := call_data_spec p d p' s' h
    constructor
    · intro k hk
      rw [hspec.2]
      exact not_mem_akeys_removeKeys d.attrs p.exclude_keys k hk
    · intro hnx hmem
      rw [hspec.2]
      exact mem_akeys_removeKeys_of_mem d.attrs p.exclude_keys
        ("edge_index") hmem hnx
  · intro p d p' d' h
    have hspec := call_hetero_spec p d p' d' h
    refine ⟨?_, ?_, ?_⟩
    · intro es' hes' k hk
      obtain ⟨es, _, hrel⟩ := forall₂_mem_right hspec.2.1 es' hes'
      rw [hrel.2.1]
      exact not_mem_akeys_removeKeys es.2.attrs p.exclude_keys k hk
    · intro ns' hns' k hk
      obtain ⟨nsr, _, hrel⟩ := forall₂_mem_right hspec.2.2 ns' hns'
      rw [hrel.2.1]
      exact not_mem_akeys_removeKeys nsr.2.attrs p.exclude_keys k hk
    · intro es hes hnx hmem
      obtain ⟨es', hes', hrel⟩ := forall₂_mem_left hspec.2.1 es hes
      refine ⟨es', hes', hrel.1, ?_⟩
      rw [hrel.2.1]
      exact mem_akeys_removeKeys_of_mem es.2.attrs p.exclude_keys
        ("edge_index") hmem hnx

/-- **C2, witness.** The amended behaviour at concrete inputs: a
construction excluding `x` is rejected and one excluding only `foo`
succeeds; a concrete call with `foo` excluded leaves no `foo` in the
store and retains the connectivity attribute. -/
theorem claim_C2_witness :
    (PadState.make (.int 5) .pynone .pynone .pynone none
      (some ["x"])).isOk = false ∧
    (PadState.make (.int 5) .pynone .pynone .pynone none
      (some ["foo"])).isOk = true ∧
    ("foo" ∉ akeys
      (⟨[("x", .mat [[1], [2], [3], [0], [0]]),
        ("edge_index", .mat [[0, 1] ++ List.replicate 23 3,
          [1, 2] ++ List.replicate 23 3])],
        ["x"], ["edge_index"], 0, 0⟩ : Store).attrs) ∧
    ("edge_index" ∈ akeys
      (⟨[("x", .mat [[1], [2], [3], [0], [0]]),
        ("edge_index", .mat [[0, 1] ++ List.replicate 23 3,
          [1, 2] ++ List.replicate 23 3])],
        ["x"], ["edge_index"], 0, 0⟩ : Store).attrs) := by
  refine ⟨?_, ?_, ?_, ?_⟩
  · exact claim_C2_exclusion.1 (.int 5) .pynone .pynone .pynone none
      ["x"] (by decide)
  · exact claim_C2_exclusion.2.1 5 none ["foo"] (by decide)
  · exact ((claim_C2_exclusion.2.2.1
      ⟨⟨some (.inl 5)⟩, ⟨some (.inl 25), ⟨some (.inl 5)⟩⟩, ["foo"],
        .uni ⟨0⟩, .uni ⟨0⟩,
        [("train_mask", 0), ("val_mask", 0), ("test_mask", 0)]⟩
      (c3Store [1] [2] [3]) _ _ (by rfl)).1 ("foo") (by decide))
  · exact ((claim_C2_exclusion.2.2.1
      ⟨⟨some (.inl 5)⟩, ⟨some (.inl 25), ⟨some (.inl 5)⟩⟩, ["foo"],
        .uni ⟨0⟩, .uni ⟨0⟩,
        [("train_mask", 0), ("val_mask", 0), ("test_mask", 0)]⟩
      (c3Store [1] [2] [3]) _ _ (by rfl)).2 (by decide) (by decide))

/-- **C10.** A call mutates the given record in place and returns it
(embedded as: the returned record is the input record with its stores
transformed, nothing else); and apart from the edge-count resolver's
lazily filled cache, a call leaves all orchestrator configuration state
unchanged — on the homogeneous path the whole transform state, cache
included, is returned unchanged, and on the heterogeneous path the
node-count spec, exclusion set, both policies, the mask-attribute fill
map and even the cache's node-count sub-resolver are unchanged. -/
theorem claim_C10_frame :
    (∀ (p : PadState) (d : Store) (p' : PadState) (s' : Store),
      p.call_data d = .ok (p', s') → p' = p) ∧
    (∀ (p : PadState) (d : HeteroData) (p' : PadState) (d' : HeteroData),
      p.call_hetero d = .ok (p', d') →
      p'.max_num_nodes = p.max_num_nodes ∧
      p'.exclude_keys = p.exclude_keys ∧
      p'.node_pad = p.node_pad ∧ p'.edge_pad = p.edge_pad ∧
      p'.node_additional_attrs_pad = p.node_additional_attrs_pad ∧
      p'.max_num_edges.num_nodes = p.max_num_edges.num_nodes) := by
  constructor
  · intro p d p' s' h
    exact (call_data_spec p d p' s' h).1
  · intro p d p' d' h
    exact (call_hetero_spec p d p' d' h).1

/-- **C10, witness.** The frame at the two concrete calls: the
homogeneous call of the 3-node scenario returns the transform state
unchanged, and the heterogeneous call of the two-node-type scenario
preserves every configuration field while only the edge-count cache is
filled. -/
theorem claim_C10_witness :
    (⟨⟨some (.inl 5)⟩, ⟨some (.inl 25), ⟨some (.inl 5)⟩⟩, [],
      .uni ⟨0⟩, .uni ⟨0⟩,
      [("train_mask", 0), ("val_mask", 0), ("test_mask", 0)]⟩ : PadState) =
    ⟨⟨some (.inl 5)⟩, ⟨some (.inl 25), ⟨some (.inl 5)⟩⟩, [],
      .uni ⟨0⟩, .uni ⟨0⟩,
      [("train_mask", 0), ("val_mask", 0), ("test_mask", 0)]⟩ ∧
    (PadState.exclude_keys
      ⟨⟨some (.inr [("a", 4), ("b", 5)])⟩,
        ⟨some (.inr [(("a", "b"), [("r", 20)])]),
          ⟨some (.inr [("a", 4), ("b", 5)])⟩⟩,
        [], .uni ⟨0⟩, .uni ⟨0⟩,
        [("train_mask", 0), ("val_mask", 0), ("test_mask", 0)]⟩ =
      PadState.exclude_keys
      ⟨⟨some (.inr [("a", 4), ("b", 5)])⟩,
        ⟨some (.inr []), ⟨some (.inr [("a", 4), ("b", 5)])⟩⟩,
        [], .uni ⟨0⟩, .uni ⟨0⟩,
        [("train_mask", 0), ("val_mask", 0), ("test_mask", 0)]⟩) := by
  constructor
  · exact claim_C10_frame.1
      ⟨⟨some (.inl 5)⟩, ⟨some (.inl 25), ⟨some (.inl 5)⟩⟩, [],
        .uni ⟨0⟩, .uni ⟨0⟩,
        [("train_mask", 0), ("val_mask", 0), ("test_mask", 0)]⟩
      (c3Store [1] [2] [3]) _ _ (by rfl)
  · exact (claim_C10_frame.2
      ⟨⟨some (.inr [("a", 4), ("b", 5)])⟩,
        ⟨some (.inr []), ⟨some (.inr [("a", 4), ("b", 5)])⟩⟩,
        [], .uni ⟨0⟩, .uni ⟨0⟩,
        [("train_mask", 0), ("val_mask", 0), ("test_mask", 0)]⟩
      { node_stores := [("a", ⟨[("x", .mat [[1], [2]])], ["x"], [], 0, 0⟩),
          ("b", ⟨[("x", .mat [[3], [4], [5]])], ["x"], [], 0, 0⟩)],
        edge_stores := [(("a", "r", "b"),
          ⟨[("edge_index", .mat [[0], [1]])], [], ["edge_index"], 0, 0⟩)] }
      ⟨⟨some (.inr [("a", 4), ("b", 5)])⟩,
        ⟨some (.inr [(("a", "b"), [("r", 20)])]),
          ⟨some (.inr [("a", 4), ("b", 5)])⟩⟩,
        [], .uni ⟨0⟩, .uni ⟨0⟩,
        [("train_mask", 0), ("val_mask", 0), ("test_mask", 0)]⟩
      { node_stores := [("a", ⟨[("x", .mat [[1], [2], [0], [0]])], ["x"],
          [], 0, 0⟩),
          ("b", ⟨[("x", .mat [[3], [4], [5], [0], [0]])], ["x"], [], 0, 0⟩)],
        edge_stores := [(("a", "r", "b"),
          ⟨[("edge_index", .mat
            [[0, 2, 2, 2, 2, 2, 2, 2, 2, 2, 2, 2, 2, 2, 2, 2, 2, 2, 2, 2],
             [1, 3, 3, 3, 3, 3, 3, 3, 3, 3, 3, 3, 3, 3, 3, 3, 3, 3, 3, 3]])],
          [], ["edge_index"], 0, 0⟩)] }
      (by rfl)).2.1
